import Mathlib

/-!
# sidecar_example: the Transform Utility and the Encoder Service

A shallow embedding of the two Go programs of the repository,

* `sidecar/main.go`: the command-line utility printing the base64 text of its first argument;
* `main.go`: the HTTP handler `encodeHandler` that runs the utility as a child process,

together with the parts of the Go standard library the two programs call
(`encoding/base64`, `unicode/utf8`, `encoding/json`, `os/exec`, `net/http`).
Go strings and byte slices are sequences of bytes; they are modelled as lists of `Fin 256`.
-/

namespace SidecarExample

/-! ## Bytes and strings -/

/-- One byte, Go's `byte` (`uint8`). -/
abbrev Byte := Fin 256

/-- A Go `string` or `[]byte`: a finite sequence of bytes. -/
abbrev Bytes := List Byte

/-- The rune U+FFFD, `utf8.RuneError` and `unicode.ReplacementChar`. -/
def RuneError : Nat := 0xFFFD

/-- Go's `utf8.EncodeRune` / `utf8.AppendRune`: the UTF-8 bytes of a rune; surrogates and
values above U+10FFFF are written as U+FFFD. -/
def EncodeRune (r : Nat) : Bytes :=
  if r < 0x80 then [Fin.ofNat r]
  else if r < 0x800 then [Fin.ofNat (0xC0 + r / 64), Fin.ofNat (0x80 + r % 64)]
  else if (0xD800 ≤ r ∧ r < 0xE000) ∨ 0x10FFFF < r then [0xEF, 0xBF, 0xBD]
  else if r < 0x10000 then
    [Fin.ofNat (0xE0 + r / 4096), Fin.ofNat (0x80 + r / 64 % 64), Fin.ofNat (0x80 + r % 64)]
  else
    [Fin.ofNat (0xF0 + r / 262144), Fin.ofNat (0x80 + r / 4096 % 64),
     Fin.ofNat (0x80 + r / 64 % 64), Fin.ofNat (0x80 + r % 64)]

/-- The bytes of a string literal of the source (Go source text is UTF-8). -/
def str (s : String) : Bytes := s.toList.flatMap (fun c => EncodeRune c.toNat)

/-- Go's `utf8.DecodeRune`: the first rune of `s` and its width in bytes; an invalid or
truncated encoding gives `(RuneError, 1)`, the empty input `(RuneError, 0)`. -/
def DecodeRune (s : Bytes) : Nat × Nat :=
  match s with
  | [] => (RuneError, 0)
  | s0 :: t =>
    if s0.val < 0x80 then (s0.val, 1)
    else if s0.val < 0xC2 ∨ 0xF4 < s0.val then (RuneError, 1)
    else
      let sz := if s0.val < 0xE0 then 2 else if s0.val < 0xF0 then 3 else 4
      let lo := if s0.val = 0xE0 then 0xA0 else if s0.val = 0xF0 then 0x90 else 0x80
      let hi := if s0.val = 0xED then 0x9F else if s0.val = 0xF4 then 0x8F else 0xBF
      match t with
      | [] => (RuneError, 1)
      | s1 :: t1 =>
        if s1.val < lo ∨ hi < s1.val then (RuneError, 1)
        else if sz ≤ 2 then ((s0.val &&& 0x1F) <<< 6 ||| (s1.val &&& 0x3F), 2)
        else
          match t1 with
          | [] => (RuneError, 1)
          | s2 :: t2 =>
            if s2.val < 0x80 ∨ 0xBF < s2.val then (RuneError, 1)
            else if sz ≤ 3 then
              ((s0.val &&& 0x0F) <<< 12 ||| (s1.val &&& 0x3F) <<< 6 ||| (s2.val &&& 0x3F), 3)
            else
              match t2 with
              | [] => (RuneError, 1)
              | s3 :: _ =>
                if s3.val < 0x80 ∨ 0xBF < s3.val then (RuneError, 1)
                else
                  ((s0.val &&& 0x07) <<< 18 ||| (s1.val &&& 0x3F) <<< 12 |||
                    (s2.val &&& 0x3F) <<< 6 ||| (s3.val &&& 0x3F), 4)

/-- The loop of Go's `utf8.Valid`: every rune of `p` decodes to something other than the
error pair `(RuneError, 1)`. The first argument bounds the number of iterations; each
iteration consumes at least one byte. -/
def validBody : Nat → Bytes → Bool
  | 0, p => p.isEmpty
  | fuel + 1, p =>
    match p with
    | [] => true
    | _ :: _ =>
      let d := DecodeRune p
      if d.1 = RuneError ∧ d.2 = 1 then false else validBody fuel (p.drop d.2)

/-- Go's `utf8.Valid`: whether `p` consists entirely of valid UTF-8 encoded runes. -/
def Valid (p : Bytes) : Bool := validBody p.length p

/-! ## `encoding/base64`: `StdEncoding.EncodeToString` -/

/-- The alphabet of `base64.StdEncoding` (the constant `encodeStd`). -/
def encodeStd : Bytes :=
  str "ABCDEFGHIJKLMNOPQRSTUVWXYZabcdefghijklmnopqrstuvwxyz0123456789+/"

/-- The padding character of `base64.StdEncoding`, `StdPadding = '='`. -/
def StdPadding : Byte := 61

/-- The lookup `enc.encode[v]` in the 64-entry table built from `encodeStd`. -/
def encTable (v : Nat) : Byte := encodeStd.getD v 0

/-- Go's `(*Encoding).Encode` for `StdEncoding`: every 3 source bytes give 4 characters; a
remainder of 1 or 2 bytes gives 2 or 3 characters followed by `=` padding. -/
def Encode : Bytes → Bytes
  | a :: b :: c :: rest =>
    let val := a.val <<< 16 ||| b.val <<< 8 ||| c.val
    encTable (val >>> 18 &&& 0x3F) :: encTable (val >>> 12 &&& 0x3F) ::
      encTable (val >>> 6 &&& 0x3F) :: encTable (val &&& 0x3F) :: Encode rest
  | [a, b] =>
    let val := a.val <<< 16 ||| b.val <<< 8
    [encTable (val >>> 18 &&& 0x3F), encTable (val >>> 12 &&& 0x3F),
      encTable (val >>> 6 &&& 0x3F), StdPadding]
  | [a] =>
    let val := a.val <<< 16
    [encTable (val >>> 18 &&& 0x3F), encTable (val >>> 12 &&& 0x3F), StdPadding, StdPadding]
  | [] => []

/-- Go's `StdEncoding.EncodeToString`. -/
def EncodeToString (src : Bytes) : Bytes := Encode src

/-! ## The Transform Utility (`sidecar/main.go`) -/

/-- What a finished process leaves behind: the bytes written to standard output and to
standard error, and the exit status. -/
structure ProcResult where
  stdout : Bytes
  stderr : Bytes
  exitCode : Nat
deriving DecidableEq, Repr

/-- The function `main` of `sidecar/main.go`, as a function of `os.Args`. -/
def main (args : List Bytes) : ProcResult :=
  if h : args.length < 2 then
    -- fmt.Println("Usage: ./sidecar <string>"); os.Exit(1)
    { stdout := str "Usage: ./sidecar <string>" ++ [10], stderr := [], exitCode := 1 }
  else
    let input := args.get ⟨1, by omega⟩
    let encoded := EncodeToString input
    -- fmt.Println(encoded), then main returns: exit status 0
    { stdout := encoded ++ [10], stderr := [], exitCode := 0 }

/-! ## `encoding/json`: decoding the request -/

/-- A parsed JSON value. The digits of a number are not kept: no field of the program is
numeric. Strings and object keys are kept unquoted. -/
inductive JValue where
  | null
  | bool (b : Bool)
  | number
  | string (s : Bytes)
  | array (elems : List JValue)
  | object (members : List (Bytes × JValue))

/-- The scanner's `isSpace`. -/
def isSpace (c : Byte) : Bool := c = 0x20 || c = 0x09 || c = 0x0D || c = 0x0A

/-- Whether `c` is one of `0` .. `9`. -/
def isDigit (c : Byte) : Bool := decide (0x30 ≤ c.val ∧ c.val ≤ 0x39)

/-- Drops leading JSON white space. -/
def skipSpace : Bytes → Bytes
  | [] => []
  | c :: rest => if isSpace c then skipSpace rest else c :: rest

/-- Drops leading decimal digits. -/
def skipDigits : Bytes → Bytes
  | [] => []
  | c :: rest => if isDigit c then skipDigits rest else c :: rest

/-- Consumes the bytes `lit` from the front of the input, or fails. -/
def expectBytes : Bytes → Bytes → Option Bytes
  | [], inp => some inp
  | _ :: _, [] => none
  | l :: lit, c :: inp => if l = c then expectBytes lit inp else none

/-- The value of a hexadecimal digit, upper or lower case. -/
def hexVal (c : Byte) : Option Nat :=
  if 0x30 ≤ c.val ∧ c.val ≤ 0x39 then some (c.val - 0x30)
  else if 0x61 ≤ c.val ∧ c.val ≤ 0x66 then some (c.val - 0x61 + 10)
  else if 0x41 ≤ c.val ∧ c.val ≤ 0x46 then some (c.val - 0x41 + 10)
  else none

/-- Go's `getu4`: the number written by a leading `\uXXXX`, or `none` (Go: `-1`). -/
def getu4 (s : Bytes) : Option Nat :=
  match s with
  | b :: u :: c1 :: c2 :: c3 :: c4 :: _ =>
    if b = 0x5C ∧ u = 0x75 then
      match hexVal c1, hexVal c2, hexVal c3, hexVal c4 with
      | some h1, some h2, some h3, some h4 => some (((h1 * 16 + h2) * 16 + h3) * 16 + h4)
      | _, _, _, _ => none
    else none
  | _ => none

/-- Go's `utf16.IsSurrogate`. -/
def utf16IsSurrogate (r : Nat) : Bool := decide (0xD800 ≤ r ∧ r < 0xE000)

/-- Go's `utf16.DecodeRune` on the result of two `getu4` calls: the code point of a valid
surrogate pair, U+FFFD otherwise. -/
def utf16DecodeRune (r1 : Nat) (r2 : Option Nat) : Nat :=
  match r2 with
  | some r2 =>
    if 0xD800 ≤ r1 ∧ r1 < 0xDC00 ∧ 0xDC00 ≤ r2 ∧ r2 < 0xE000 then
      ((r1 - 0xD800) <<< 10 ||| (r2 - 0xDC00)) + 0x10000
    else RuneError
  | none => RuneError

/-- The byte a one-letter escape stands for (`stateInStringEsc` and `unquoteBytes`). -/
def escapeByte (e : Byte) : Option Byte :=
  if e = 0x22 ∨ e = 0x5C ∨ e = 0x2F then some e
  else if e = 0x62 then some 0x08
  else if e = 0x66 then some 0x0C
  else if e = 0x6E then some 0x0A
  else if e = 0x72 then some 0x0D
  else if e = 0x74 then some 0x09
  else none

/-- Prepends already unquoted bytes to the result of scanning the remainder of a string. -/
def emit (out : Bytes) (r : Option (Bytes × Bytes)) : Option (Bytes × Bytes) :=
  r.map (fun p => (out ++ p.1, p.2))

/-- A JSON string literal after its opening quote: the scanner's `stateInString` states and
`unquoteBytes` in one pass. Returns the unquoted string and the input after the closing quote.
Control characters, unknown escapes and a missing closing quote are errors; invalid UTF-8 and
unpaired surrogates are replaced by U+FFFD. The first argument bounds the number of steps;
every step consumes at least one byte. -/
def parseStringBody : Nat → Bytes → Option (Bytes × Bytes)
  | 0, _ => none
  | fuel + 1, inp =>
    match inp with
    | [] => none
    | c :: rest =>
      if c = 0x22 then some ([], rest)
      else if c = 0x5C then
        match rest with
        | [] => none
        | e :: rest1 =>
          if e = 0x75 then
            match getu4 inp with
            | none => none
            | some rr =>
              let rest2 := inp.drop 6
              if utf16IsSurrogate rr then
                let dec := utf16DecodeRune rr (getu4 rest2)
                if dec ≠ RuneError then
                  emit (EncodeRune dec) (parseStringBody fuel (rest2.drop 6))
                else emit (EncodeRune RuneError) (parseStringBody fuel rest2)
              else emit (EncodeRune rr) (parseStringBody fuel rest2)
          else
            match escapeByte e with
            | none => none
            | some b => emit [b] (parseStringBody fuel rest1)
      else if c.val < 0x20 then none
      else if c.val < 0x80 then emit [c] (parseStringBody fuel rest)
      else
        let d := DecodeRune inp
        emit (EncodeRune d.1) (parseStringBody fuel (inp.drop d.2))

/-- A JSON string literal after its opening quote. -/
def parseString (inp : Bytes) : Option (Bytes × Bytes) := parseStringBody inp.length inp

/-- The optional exponent of a number (scanner states `stateE`, `stateESign`, `stateE0`). -/
def scanExponent (inp : Bytes) : Option Bytes :=
  match inp with
  | e :: rest =>
    if e = 0x65 ∨ e = 0x45 then
      let rest1 :=
        match rest with
        | s :: r => if s = 0x2B ∨ s = 0x2D then r else rest
        | [] => rest
      match rest1 with
      | d :: r => if isDigit d then some (skipDigits r) else none
      | [] => none
    else some inp
  | [] => some inp

/-- The optional fraction and exponent of a number (`state0`, `stateDot`, `stateDot0`). -/
def scanFraction (inp : Bytes) : Option Bytes :=
  match inp with
  | dot :: rest =>
    if dot = 0x2E then
      match rest with
      | d :: r => if isDigit d then scanExponent (skipDigits r) else none
      | [] => none
    else scanExponent inp
  | [] => some inp

/-- A JSON number (`stateNeg`, `state0`, `state1` and what follows): returns the input after
the longest number literal at the front, or fails when that literal is incomplete. -/
def scanNumber (inp : Bytes) : Option Bytes :=
  let unsigned :=
    match inp with
    | m :: rest => if m = 0x2D then rest else inp
    | [] => inp
  match unsigned with
  | d :: rest =>
    if d = 0x30 then scanFraction rest
    else if isDigit d then scanFraction (skipDigits rest)
    else none
  | [] => none

/-- The scanner's `maxNestingDepth`. -/
def maxNestingDepth : Nat := 10000

/-- A JSON value that is not an array or an object, from its first byte `c`: a string, a
number or one of the literals `true`, `false`, `null`. -/
def parseScalar (c : Byte) (rest : Bytes) : Option (JValue × Bytes) :=
  if c = 0x22 then (parseString rest).map (fun p => (JValue.string p.1, p.2))
  else if c = 0x2D ∨ isDigit c then (scanNumber (c :: rest)).map (fun r => (JValue.number, r))
  else if c = 0x74 then (expectBytes (str "rue") rest).map (fun r => (JValue.bool true, r))
  else if c = 0x66 then (expectBytes (str "alse") rest).map (fun r => (JValue.bool false, r))
  else if c = 0x6E then (expectBytes (str "ull") rest).map (fun r => (JValue.null, r))
  else none

mutual
/-- One JSON value at the front of the input, after optional white space: the value and the
input that follows it. `depth` is the number of arrays and objects already open. -/
def parseValue : Nat → Nat → Bytes → Option (JValue × Bytes)
  | 0, _, _ => none
  | fuel + 1, depth, inp =>
    match skipSpace inp with
    | [] => none
    | c :: rest =>
      if c = 0x7B then
        if maxNestingDepth ≤ depth then none
        else
          match skipSpace rest with
          | [] => none
          | c1 :: rest1 =>
            if c1 = 0x7D then some (JValue.object [], rest1)
            else (parseMembers fuel (depth + 1) (c1 :: rest1)).map
              (fun p => (JValue.object p.1, p.2))
      else if c = 0x5B then
        if maxNestingDepth ≤ depth then none
        else
          match skipSpace rest with
          | [] => none
          | c1 :: rest1 =>
            if c1 = 0x5D then some (JValue.array [], rest1)
            else (parseElems fuel (depth + 1) (c1 :: rest1)).map
              (fun p => (JValue.array p.1, p.2))
      else parseScalar c rest
/-- The members of a non-empty object, from the first key to the closing brace. -/
def parseMembers : Nat → Nat → Bytes → Option (List (Bytes × JValue) × Bytes)
  | 0, _, _ => none
  | fuel + 1, depth, inp =>
    match skipSpace inp with
    | [] => none
    | q :: rest =>
      if q = 0x22 then
        match parseString rest with
        | none => none
        | some (key, rest1) =>
          match skipSpace rest1 with
          | [] => none
          | colon :: rest2 =>
            if colon = 0x3A then
              match parseValue fuel depth rest2 with
              | none => none
              | some (v, rest3) =>
                match skipSpace rest3 with
                | [] => none
                | sep :: rest4 =>
                  if sep = 0x2C then
                    (parseMembers fuel depth rest4).map (fun p => ((key, v) :: p.1, p.2))
                  else if sep = 0x7D then some ([(key, v)], rest4)
                  else none
            else none
      else none
/-- The elements of a non-empty array, from the first element to the closing bracket. -/
def parseElems : Nat → Nat → Bytes → Option (List JValue × Bytes)
  | 0, _, _ => none
  | fuel + 1, depth, inp =>
    match parseValue fuel depth inp with
    | none => none
    | some (v, rest) =>
      match skipSpace rest with
      | [] => none
      | sep :: rest1 =>
        if sep = 0x2C then (parseElems fuel depth rest1).map (fun p => (v :: p.1, p.2))
        else if sep = 0x5D then some ([v], rest1)
        else none
end

/-- The first JSON value of a stream, as `(*Decoder).Decode` reads it: what follows the value
is left unread. Any two nested calls of the parser consume at least one byte between them, so
twice the length of the input, plus one, bounds the recursion (`readValue_fuel`). -/
def readValue (body : Bytes) : Option JValue :=
  (parseValue (2 * body.length + 1) 0 body).map (fun p => p.1)

/-- The two ways `Decode` fails: the stream does not start with a JSON value (`io.EOF`,
`io.ErrUnexpectedEOF`, `*json.SyntaxError`), or the value does not fit the destination
(`*json.UnmarshalTypeError`). -/
inductive DecodeError where
  | invalidJSON
  | typeMismatch
deriving DecidableEq, Repr

/-- The upper-case form of an ASCII letter, as `foldName` takes it; other bytes are kept. -/
def foldByte (c : Byte) : Byte :=
  if 0x61 ≤ c.val ∧ c.val ≤ 0x7A then Fin.ofNat (c.val - 0x20) else c

/-- Whether an object key selects the struct field with JSON name `name`: an exact match, or a
match after case folding. The names of this program (`data`, `encoded`) hold no `k` and no
`s`, the only ASCII letters that a non-ASCII rune folds to, so folding the ASCII letters is
all of `foldName` that can produce a match. -/
def keyMatches (name key : Bytes) : Bool :=
  key = name || key.map foldByte = name.map foldByte

/-- Stores one object member into a struct whose only field is a string with JSON name
`name`. The state is the field and whether an `UnmarshalTypeError` was saved. A JSON string
sets the field, `null` leaves it, any other value saves an error and leaves it; members with
another key are skipped. -/
def storeMember (name : Bytes) (st : Bytes × Bool) (m : Bytes × JValue) : Bytes × Bool :=
  if keyMatches name m.1 then
    match m.2 with
    | JValue.string s => (s, st.2)
    | JValue.null => st
    | _ => (st.1, true)
  else st

/-- Go's `(*decodeState).unmarshal` into a struct whose only field is a string with JSON name
`name`, starting from the field value `field`: `null` leaves the struct as it is, an object is
stored member by member, any other value is an `UnmarshalTypeError`. -/
def unmarshalField (name : Bytes) (field : Bytes) (v : JValue) : Except DecodeError Bytes :=
  match v with
  | JValue.null => Except.ok field
  | JValue.object members =>
    let st := members.foldl (storeMember name) (field, false)
    if st.2 then Except.error DecodeError.typeMismatch else Except.ok st.1
  | _ => Except.error DecodeError.typeMismatch

/-- Go's `json.NewDecoder(body).Decode(&x)` for a zero-valued struct `x` whose only field is
a string with JSON name `name`. -/
def decodeStringField (name : Bytes) (body : Bytes) : Except DecodeError Bytes :=
  match readValue body with
  | none => Except.error DecodeError.invalidJSON
  | some v => unmarshalField name [] v

/-! ## `encoding/json`: encoding the response -/

/-- The table `hex` of `encoding/json`. -/
def hex (n : Nat) : Byte := (str "0123456789abcdef").getD n 0

/-- The table `htmlSafeSet`: the ASCII bytes written as they are when HTML escaping is on. -/
def htmlSafeSet (b : Byte) : Bool :=
  decide (0x20 ≤ b.val ∧ b.val < 0x80) && b != 0x22 && b != 0x26 && b != 0x3C && b != 0x3E &&
    b != 0x5C

/-- How `appendString` writes an ASCII byte outside `htmlSafeSet`. -/
def escapeASCII (b : Byte) : Bytes :=
  if b = 0x5C ∨ b = 0x22 then [0x5C, b]
  else if b = 0x08 then str "\\b"
  else if b = 0x0C then str "\\f"
  else if b = 0x0A then str "\\n"
  else if b = 0x0D then str "\\r"
  else if b = 0x09 then str "\\t"
  else str "\\u00" ++ [hex (b.val >>> 4), hex (b.val &&& 0xF)]

/-- The loop of `appendString` with HTML escaping on (the default of `json.Encoder`): the
text between the quotes. The first argument bounds the number of iterations; each iteration
consumes at least one byte. -/
def appendStringBody : Nat → Bytes → Bytes
  | 0, _ => []
  | fuel + 1, src =>
    match src with
    | [] => []
    | b :: rest =>
      if b.val < 0x80 then
        if htmlSafeSet b then b :: appendStringBody fuel rest
        else escapeASCII b ++ appendStringBody fuel rest
      else
        let d := DecodeRune (src.take 4)
        if d.1 = RuneError ∧ d.2 = 1 then str "\\ufffd" ++ appendStringBody fuel rest
        else if d.1 = 0x2028 ∨ d.1 = 0x2029 then
          str "\\u202" ++ [hex (d.1 &&& 0xF)] ++ appendStringBody fuel (src.drop d.2)
        else src.take d.2 ++ appendStringBody fuel (src.drop d.2)

/-- Go's `appendString(dst, src, true)`: `src` as a quoted JSON string. -/
def appendString (src : Bytes) : Bytes :=
  [0x22] ++ appendStringBody src.length src ++ [0x22]

/-! ## `os/exec`: running the child process -/

/-- Go's `exec.Cmd`, as far as the handler sets it up: the path of the executable and the
argument vector, whose first entry is the command name. -/
structure Cmd where
  Path : Bytes
  Args : List Bytes
deriving DecidableEq, Repr

/-- Go's `exec.Command(name, arg...)`. The name used by the handler contains a path
separator, so no `PATH` lookup takes place and `Path` is the name itself. -/
def Command (name : Bytes) (arg : List Bytes) : Cmd := { Path := name, Args := name :: arg }

/-- The operating system as the handler sees it: what running the executable at a path with
an argument vector produces, or `none` when the process cannot be started (no such file, no
permission, argument list too long, ...). -/
abbrev Host := Bytes → List Bytes → Option ProcResult

/-- One request to the host to start a process: the path and the argument vector it was
given. -/
structure Launch where
  Path : Bytes
  Argv : List Bytes
deriving DecidableEq, Repr

/-- The fork and exec of `syscall.StartProcess`, the one place where the host is asked to
start a process: the answer of the host, and the record of what it was asked. -/
def forkExec (host : Host) (path : Bytes) (argv : List Bytes) :
    Option ProcResult × List Launch :=
  (host path argv, [{ Path := path, Argv := argv }])

/-- Why `(*Cmd).Output` returns an error. -/
inductive ExecError where
  | invalidArgument
  | startFailed
  | exitError (code : Nat)
deriving DecidableEq, Repr

/-- Starting the process and waiting for it (`(*Cmd).Start` and `(*Cmd).Wait`), with the
record of what the host was asked to start. Before the system call Go converts the path and
each argument to a NUL-terminated C string (`syscall.BytePtrFromString`,
`syscall.SlicePtrFromStrings`); a string containing a NUL byte makes the conversion, and with
it `Start`, fail with `EINVAL`, and the host is not asked anything. -/
def Cmd.startAndWait (host : Host) (c : Cmd) : Except ExecError ProcResult × List Launch :=
  if (c.Path :: c.Args).any (fun s => s.contains 0) then
    (Except.error ExecError.invalidArgument, [])
  else
    match forkExec host c.Path c.Args with
    | (none, asked) => (Except.error ExecError.startFailed, asked)
    | (some r, asked) => (Except.ok r, asked)

/-- Go's `(*Cmd).Run`, as far as its result goes: the finished process, or the error that
kept it from starting. -/
def Cmd.Run (host : Host) (c : Cmd) : Except ExecError ProcResult := (c.startAndWait host).1

/-- Go's `(*Cmd).Output`: the captured standard output when the process ran and exited with
status 0, an error otherwise; and the record of what the host was asked to start. -/
def Cmd.Output (host : Host) (c : Cmd) : Except ExecError Bytes × List Launch :=
  match c.startAndWait host with
  | (Except.error e, asked) => (Except.error e, asked)
  | (Except.ok r, asked) =>
    if r.exitCode = 0 then (Except.ok r.stdout, asked)
    else (Except.error (ExecError.exitError r.exitCode), asked)

/-! ## `net/http`: the request and the response writer -/

/-- The parts of `http.Request` a handler can look at: the method, the request URI, the
header fields and the body. -/
structure HttpRequest where
  Method : String
  URL : String := "/encode"
  Header : List (String × String) := []
  Body : Bytes
deriving DecidableEq, Repr

/-- The state of an `http.ResponseWriter`: the header map, the status code once the header
has been written, and the body bytes written so far. -/
structure ResponseWriter where
  header : List (String × String)
  status : Option Nat
  body : Bytes
deriving DecidableEq, Repr

/-- The response writer a handler is called with. -/
def ResponseWriter.new : ResponseWriter := { header := [], status := none, body := [] }

/-- Go's `w.Header().Del(key)`. -/
def ResponseWriter.Del (w : ResponseWriter) (key : String) : ResponseWriter :=
  { w with header := w.header.filter (fun kv => kv.1 != key) }

/-- Go's `w.Header().Set(key, value)`. -/
def ResponseWriter.Set (w : ResponseWriter) (key value : String) : ResponseWriter :=
  { w with header := (w.header.filter (fun kv => kv.1 != key)) ++ [(key, value)] }

/-- Go's `w.WriteHeader(code)`; only the first call has an effect. -/
def ResponseWriter.WriteHeader (w : ResponseWriter) (code : Nat) : ResponseWriter :=
  match w.status with
  | some _ => w
  | none => { w with status := some code }

/-- Go's `w.Write(p)`: writes the header with `http.StatusOK` if it has not been written. -/
def ResponseWriter.Write (w : ResponseWriter) (p : Bytes) : ResponseWriter :=
  let w1 := w.WriteHeader 200
  { w1 with body := w1.body ++ p }

/-- Go's `http.StatusBadRequest`. -/
def StatusBadRequest : Nat := 400

/-- Go's `http.StatusInternalServerError`. -/
def StatusInternalServerError : Nat := 500

/-- Go's `http.Error(w, error, code)`. -/
def Error (w : ResponseWriter) (error : Bytes) (code : Nat) : ResponseWriter :=
  let w1 := w.Del "Content-Length"
  let w2 := w1.Set "Content-Type" "text/plain; charset=utf-8"
  let w3 := w2.Set "X-Content-Type-Options" "nosniff"
  let w4 := w3.WriteHeader code
  -- fmt.Fprintln(w, error)
  w4.Write (error ++ [10])

/-! ## The Encoder Service (`main.go`) -/

/-- The struct `Request` of `main.go`. -/
structure Request where
  Data : Bytes
deriving DecidableEq, Repr

/-- The struct `Response` of `main.go`. -/
structure Response where
  Encoded : Bytes
deriving DecidableEq, Repr

/-- Go's `json.NewDecoder(r.Body).Decode(&req)` for `var req Request`; the field `Data` has
the tag `json:"data"`. -/
def decodeRequest (body : Bytes) : Except DecodeError Request :=
  match decodeStringField (str "data") body with
  | Except.error e => Except.error e
  | Except.ok s => Except.ok { Data := s }

/-- Go's `json.Marshal` on a `Response` as `json.Encoder` calls it: one object with the key
`encoded`, the tag of the field `Encoded`. -/
def marshalResponse (res : Response) : Bytes :=
  str "\x7b\"encoded\":" ++ appendString res.Encoded ++ str "\x7d"

/-- Go's `json.NewEncoder(w).Encode(res)`: the JSON text and a newline, in one `Write`. -/
def encodeResponse (w : ResponseWriter) (res : Response) : ResponseWriter :=
  w.Write (marshalResponse res ++ [10])

/-- The path the handler runs. -/
def sidecarPath : Bytes := str "/shared-bin/sidecar"

/-- The outcome of one call of the handler: the response writer as the handler leaves it,
the commands whose `Output` method it called, in order, and the requests to start a process
that reached the host, in order. -/
structure Handled where
  w : ResponseWriter
  ran : List Cmd
  launched : List Launch
deriving DecidableEq, Repr

/-- The function `encodeHandler` of `main.go`. -/
def encodeHandler (host : Host) (w : ResponseWriter) (r : HttpRequest) : Handled :=
  match decodeRequest r.Body with
  | Except.error _ =>
    { w := Error w (str "Invalid request") StatusBadRequest, ran := [], launched := [] }
  | Except.ok req =>
    let cmd := Command sidecarPath [req.Data]
    match cmd.Output host with
    | (Except.error _, asked) =>
      { w := Error w (str "Error executing sidecar") StatusInternalServerError,
        ran := [cmd], launched := asked }
    | (Except.ok output, asked) =>
      let res : Response := { Encoded := output }
      let w1 := w.Set "Content-Type" "application/json"
      { w := encodeResponse w1 res, ran := [cmd], launched := asked }

/-- Go's `json.Marshal` on a `Request`, the JSON text a Go client sends for the data `s`:
one object with the key `data`, the tag of the field `Data`. -/
def marshalRequest (req : Request) : Bytes :=
  str "\x7b\"data\":" ++ appendString req.Data ++ str "\x7d"

/-- A host on which the Transform Utility is installed at the path the handler runs, and
nothing else is. -/
def sidecarHost : Host :=
  fun path argv => if path = sidecarPath then some (main argv) else none

/-- A host on which no process can be started. -/
def emptyHost : Host := fun _ _ => none

/-! ## Base64 as RFC 4648 describes it

The text of the specification names "standard base64 encoding (the standard alphabet,
padded)". The definitions below follow RFC 4648, section 4, not the Go library: the input is
read as a stream of bits, cut into groups of 6 bits, each group is translated by the alphabet
table, and the text is padded with `=` to a multiple of 4 characters. -/

/-- RFC 4648, Table 1: the character for a 6-bit value. -/
def alphabetChar (v : Nat) : Byte :=
  if v < 26 then Fin.ofNat (65 + v)
  else if v < 52 then Fin.ofNat (97 + (v - 26))
  else if v < 62 then Fin.ofNat (48 + (v - 52))
  else if v = 62 then 43
  else 47

/-- The 8 bits of a byte, most significant first. -/
def bitsOfByte (b : Byte) : List Nat :=
  [b.val / 128 % 2, b.val / 64 % 2, b.val / 32 % 2, b.val / 16 % 2,
   b.val / 8 % 2, b.val / 4 % 2, b.val / 2 % 2, b.val % 2]

/-- The number written by a list of bits, most significant first. -/
def natOfBits (bits : List Nat) : Nat := bits.foldl (fun acc b => 2 * acc + b) 0

/-- A bit stream cut into 6-bit groups; a last group of fewer than 6 bits is filled with zero
bits on the right. -/
def sextets : List Nat → List Nat
  | b0 :: b1 :: b2 :: b3 :: b4 :: b5 :: rest => natOfBits [b0, b1, b2, b3, b4, b5] :: sextets rest
  | [] => []
  | bits => [natOfBits (bits ++ List.replicate (6 - bits.length) 0)]

/-- The padded base64 text of a byte sequence, as RFC 4648 defines it. -/
def base64Text (src : Bytes) : Bytes :=
  let chars := (sextets (src.flatMap bitsOfByte)).map alphabetChar
  chars ++ List.replicate ((4 - chars.length % 4) % 4) StdPadding

/-- The 6-bit value of a character of the alphabet (the inverse of RFC 4648, Table 1). -/
def decodeChar (c : Byte) : Option Nat :=
  if 65 ≤ c.val ∧ c.val ≤ 90 then some (c.val - 65)
  else if 97 ≤ c.val ∧ c.val ≤ 122 then some (c.val - 97 + 26)
  else if 48 ≤ c.val ∧ c.val ≤ 57 then some (c.val - 48 + 52)
  else if c.val = 43 then some 62
  else if c.val = 47 then some 63
  else none

/-- Base64 decoding of padded text: every 4 characters give 3 bytes; a last group ending in
one or two `=` gives 2 bytes or 1 byte. Characters outside the alphabet, padding anywhere
else, and a length that is not a multiple of 4 are errors. -/
def base64Decode : Bytes → Option Bytes
  | [] => some []
  | c1 :: c2 :: c3 :: c4 :: rest =>
    if c3 = StdPadding ∧ c4 = StdPadding ∧ rest = [] then
      match decodeChar c1, decodeChar c2 with
      | some v1, some v2 => some [Fin.ofNat (v1 * 4 + v2 / 16)]
      | _, _ => none
    else if c4 = StdPadding ∧ rest = [] then
      match decodeChar c1, decodeChar c2, decodeChar c3 with
      | some v1, some v2, some v3 =>
        some [Fin.ofNat (v1 * 4 + v2 / 16), Fin.ofNat (v2 % 16 * 16 + v3 / 4)]
      | _, _, _ => none
    else
      match decodeChar c1, decodeChar c2, decodeChar c3, decodeChar c4, base64Decode rest with
      | some v1, some v2, some v3, some v4, some tail =>
        some (Fin.ofNat (v1 * 4 + v2 / 16) :: Fin.ofNat (v2 % 16 * 16 + v3 / 4) ::
          Fin.ofNat (v3 % 4 * 64 + v4) :: tail)
      | _, _, _, _, _ => none
  | _ => none

/-- Removes one trailing newline, if there is one. -/
def trimNewline (s : Bytes) : Bytes :=
  if s.getLast? = some 10 then s.dropLast else s

/-- What a client that decodes the response body into the struct `Response` finds in the
field `Encoded` (tag `json:"encoded"`). -/
def responseEncoded (w : ResponseWriter) : Except DecodeError Bytes :=
  decodeStringField (str "encoded") w.body

/-! ## The parser does not run out of steps -/

theorem skipSpace_length_le (inp : Bytes) : (skipSpace inp).length ≤ inp.length := by
  induction inp with
  | nil => simp [skipSpace]
  | cons c rest ih =>
    rw [skipSpace]
    split
    · exact Nat.le_succ_of_le ih
    · exact Nat.le_refl _

theorem skipDigits_length_le (inp : Bytes) : (skipDigits inp).length ≤ inp.length := by
  induction inp with
  | nil => simp [skipDigits]
  | cons c rest ih =>
    rw [skipDigits]
    split
    · exact Nat.le_succ_of_le ih
    · exact Nat.le_refl _

theorem expectBytes_length_le (lit inp r : Bytes) (h : expectBytes lit inp = some r) :
    r.length ≤ inp.length := by
  induction lit generalizing inp with
  | nil =>
    simp only [expectBytes, Option.some.injEq] at h
    rw [h]
  | cons l lit ih =>
    cases inp with
    | nil => simp [expectBytes] at h
    | cons c inp =>
      rw [expectBytes] at h
      split at h
      · exact Nat.le_succ_of_le (ih inp h)
      · cases h

theorem scanExponent_length_le (inp r : Bytes) (h : scanExponent inp = some r) :
    r.length ≤ inp.length := by
  unfold scanExponent at h
  split at h
  · rename_i e rest
    split at h
    · have h1 : ∀ rest1 : Bytes, rest1.length ≤ rest.length →
          (match rest1 with
            | d :: r => if isDigit d = true then some (skipDigits r) else none
            | [] => none) = some r → r.length ≤ (e :: rest).length := by
        intro rest1 hl hm
        split at hm
        · rename_i d r1
          split at hm
          · simp only [Option.some.injEq] at hm
            have := skipDigits_length_le r1
            simp only [List.length_cons] at hl ⊢
            rw [← hm]
            omega
          · cases hm
        · cases hm
      refine h1 _ ?_ h
      split
      · split
        · simp
        · exact Nat.le_refl _
      · exact Nat.le_refl _
    · simp only [Option.some.injEq] at h
      rw [h]
  · simp only [Option.some.injEq] at h
    rw [h]

theorem scanFraction_length_le (inp r : Bytes) (h : scanFraction inp = some r) :
    r.length ≤ inp.length := by
  unfold scanFraction at h
  split at h
  · rename_i dot rest
    split at h
    · split at h
      · rename_i d r1
        split at h
        · have h1 := scanExponent_length_le _ _ h
          have h2 := skipDigits_length_le r1
          simp only [List.length_cons]
          omega
        · cases h
      · cases h
    · exact scanExponent_length_le _ _ h
  · simp only [Option.some.injEq] at h
    rw [h]

theorem scanNumber_length_lt (inp r : Bytes) (h : scanNumber inp = some r) :
    r.length < inp.length := by
  unfold scanNumber at h
  have key : ∀ u : Bytes, u.length ≤ inp.length →
      (match u with
        | d :: rest =>
          if d = 0x30 then scanFraction rest
          else if isDigit d = true then scanFraction (skipDigits rest)
          else none
        | [] => none) = some r → r.length < inp.length := by
    intro u hu hm
    split at hm
    · rename_i d rest
      simp only [List.length_cons] at hu
      split at hm
      · have := scanFraction_length_le _ _ hm
        omega
      · split at hm
        · have := scanFraction_length_le _ _ hm
          have := skipDigits_length_le rest
          omega
        · cases hm
    · cases hm
  refine key _ ?_ h
  split
  · split
    · simp
    · exact Nat.le_refl _
  · exact Nat.le_refl _

theorem ite_snd_pos (p : Prop) [Decidable p] (a b : Nat × Nat) (ha : 1 ≤ a.2) (hb : 1 ≤ b.2) :
    1 ≤ (if p then a else b).2 := by
  split
  · exact ha
  · exact hb

theorem DecodeRune_width_pos (c : Byte) (rest : Bytes) : 1 ≤ (DecodeRune (c :: rest)).2 := by
  rw [DecodeRune]
  refine ite_snd_pos _ _ _ (Nat.le_refl 1) (ite_snd_pos _ _ _ (Nat.le_refl 1) ?_)
  cases rest with
  | nil => exact Nat.le_refl 1
  | cons s1 t1 =>
    refine ite_snd_pos _ _ _ (Nat.le_refl 1) (ite_snd_pos _ _ _ (Nat.le_succ 1) ?_)
    cases t1 with
    | nil => exact Nat.le_refl 1
    | cons s2 t2 =>
      refine ite_snd_pos _ _ _ (Nat.le_refl 1) (ite_snd_pos _ _ _ (Nat.le_add_left 1 2) ?_)
      cases t2 with
      | nil => exact Nat.le_refl 1
      | cons s3 t3 => exact ite_snd_pos _ _ _ (Nat.le_refl 1) (Nat.le_add_left 1 3)

theorem emit_eq_some (out s r : Bytes) (x : Option (Bytes × Bytes)) (h : emit out x = some (s, r)) :
    ∃ s1, x = some (s1, r) := by
  cases x with
  | none => cases h
  | some p =>
    simp only [emit, Option.map_some', Option.some.injEq, Prod.mk.injEq] at h
    exact ⟨p.1, by rw [← h.2]⟩

/-- One step of the string scanner: which of its three outcomes it takes (an error, the
closing quote, or some output followed by the scan of a shorter input) does not depend on the
number of steps left. -/
theorem parseStringBody_step (c : Byte) (rest : Bytes) :
    (∀ fuel, parseStringBody (fuel + 1) (c :: rest) = none) ∨
      (∀ fuel, parseStringBody (fuel + 1) (c :: rest) = some ([], rest)) ∨
      ∃ out X, X.length ≤ rest.length ∧
        ∀ fuel, parseStringBody (fuel + 1) (c :: rest) = emit out (parseStringBody fuel X) := by
  by_cases h1 : c = 0x22
  · refine Or.inr (Or.inl fun fuel => ?_)
    rw [parseStringBody.eq_def]
    simp only [if_pos h1]
  by_cases h2 : c = 0x5C
  · cases rest with
    | nil =>
      refine Or.inl fun fuel => ?_
      rw [parseStringBody.eq_def]
      simp only [if_neg h1, if_pos h2]
    | cons e rest1 =>
      by_cases h3 : e = 0x75
      · cases hg : getu4 (c :: e :: rest1) with
        | none =>
          refine Or.inl fun fuel => ?_
          rw [parseStringBody.eq_def]
          simp only [if_neg h1, if_pos h2, if_pos h3, hg]
        | some rr =>
          by_cases h4 : utf16IsSurrogate rr = true
          · by_cases h5 : utf16DecodeRune rr (getu4 ((c :: e :: rest1).drop 6)) ≠ RuneError
            · refine Or.inr (Or.inr ⟨EncodeRune (utf16DecodeRune rr (getu4 ((c :: e :: rest1).drop 6))),
                ((c :: e :: rest1).drop 6).drop 6, ?_, fun fuel => ?_⟩)
              · simp only [List.length_drop, List.length_cons]
                omega
              · rw [parseStringBody.eq_def]
                simp only [if_neg h1, if_pos h2, if_pos h3, hg, if_pos h4, if_pos h5]
            · refine Or.inr (Or.inr ⟨EncodeRune RuneError, (c :: e :: rest1).drop 6, ?_,
                fun fuel => ?_⟩)
              · simp only [List.length_drop, List.length_cons]
                omega
              · rw [parseStringBody.eq_def]
                simp only [if_neg h1, if_pos h2, if_pos h3, hg, if_pos h4, if_neg h5]
          · refine Or.inr (Or.inr ⟨EncodeRune rr, (c :: e :: rest1).drop 6, ?_, fun fuel => ?_⟩)
            · simp only [List.length_drop, List.length_cons]
              omega
            · rw [parseStringBody.eq_def]
              simp only [if_neg h1, if_pos h2, if_pos h3, hg, if_neg h4]
      · cases he : escapeByte e with
        | none =>
          refine Or.inl fun fuel => ?_
          rw [parseStringBody.eq_def]
          simp only [if_neg h1, if_pos h2, if_neg h3, he]
        | some b =>
          refine Or.inr (Or.inr ⟨[b], rest1, ?_, fun fuel => ?_⟩)
          · simp only [List.length_cons]
            omega
          · rw [parseStringBody.eq_def]
            simp only [if_neg h1, if_pos h2, if_neg h3, he]
  by_cases h3 : c.val < 0x20
  · refine Or.inl fun fuel => ?_
    rw [parseStringBody.eq_def]
    simp only [if_neg h1, if_neg h2, if_pos h3]
  by_cases h4 : c.val < 0x80
  · refine Or.inr (Or.inr ⟨[c], rest, Nat.le_refl _, fun fuel => ?_⟩)
    rw [parseStringBody.eq_def]
    simp only [if_neg h1, if_neg h2, if_neg h3, if_pos h4]
  · refine Or.inr (Or.inr ⟨EncodeRune (DecodeRune (c :: rest)).1,
      (c :: rest).drop (DecodeRune (c :: rest)).2, ?_, fun fuel => ?_⟩)
    · have := DecodeRune_width_pos c rest
      simp only [List.length_drop, List.length_cons]
      omega
    · rw [parseStringBody.eq_def]
      simp only [if_neg h1, if_neg h2, if_neg h3, if_neg h4]

/-- The string scanner consumes input: what it leaves is shorter than what it was given. -/
theorem parseStringBody_length_lt (fuel : Nat) :
    ∀ (inp s r : Bytes), parseStringBody fuel inp = some (s, r) → r.length < inp.length := by
  induction fuel with
  | zero =>
    intro inp s r h
    rw [parseStringBody.eq_def] at h
    cases h
  | succ fuel ih =>
    intro inp s r h
    cases inp with
    | nil =>
      rw [parseStringBody.eq_def] at h
      cases h
    | cons c rest =>
      rcases parseStringBody_step c rest with h0 | h0 | ⟨out, X, hX, h0⟩
      · rw [h0 fuel] at h
        cases h
      · rw [h0 fuel] at h
        simp only [Option.some.injEq, Prod.mk.injEq] at h
        rw [← h.2]
        exact Nat.lt_succ_self _
      · rw [h0 fuel] at h
        obtain ⟨s1, hs1⟩ := emit_eq_some _ _ _ _ h
        have := ih X s1 r hs1
        simp only [List.length_cons]
        omega

/-- The string scanner does not run out of steps: with as many steps as the input has bytes,
more steps change nothing. -/
theorem parseStringBody_fuel (fuel1 : Nat) :
    ∀ (fuel2 : Nat) (inp : Bytes), inp.length ≤ fuel1 → inp.length ≤ fuel2 →
      parseStringBody fuel1 inp = parseStringBody fuel2 inp := by
  induction fuel1 with
  | zero =>
    intro fuel2 inp h1 _
    have hnil : inp = [] := List.length_eq_zero.mp (Nat.le_zero.mp h1)
    subst hnil
    rw [parseStringBody.eq_def, parseStringBody.eq_def]
    cases fuel2 <;> rfl
  | succ fuel1 ih =>
    intro fuel2 inp h1 h2
    cases inp with
    | nil =>
      rw [parseStringBody.eq_def, parseStringBody.eq_def]
      cases fuel2 <;> rfl
    | cons c rest =>
      cases fuel2 with
      | zero => simp at h2
      | succ fuel2 =>
        simp only [List.length_cons, Nat.add_le_add_iff_right] at h1 h2
        rcases parseStringBody_step c rest with h0 | h0 | ⟨out, X, hX, h0⟩
        · rw [h0 fuel1, h0 fuel2]
        · rw [h0 fuel1, h0 fuel2]
        · rw [h0 fuel1, h0 fuel2, ih fuel2 X (by omega) (by omega)]

theorem parseString_length_lt (inp s r : Bytes) (h : parseString inp = some (s, r)) :
    r.length < inp.length :=
  parseStringBody_length_lt _ inp s r h

theorem parseScalar_length_lt (c : Byte) (rest r : Bytes) (v : JValue)
    (h : parseScalar c rest = some (v, r)) : r.length < (c :: rest).length := by
  unfold parseScalar at h
  simp only [List.length_cons]
  split at h
  · cases hp : parseString rest with
    | none => rw [hp] at h; cases h
    | some p =>
      rw [hp] at h
      simp only [Option.map_some', Option.some.injEq, Prod.mk.injEq] at h
      have := parseString_length_lt rest p.1 p.2 hp
      rw [← h.2]
      omega
  · split at h
    · cases hp : scanNumber (c :: rest) with
      | none => rw [hp] at h; cases h
      | some p =>
        rw [hp] at h
        simp only [Option.map_some', Option.some.injEq, Prod.mk.injEq] at h
        have := scanNumber_length_lt _ _ hp
        simp only [List.length_cons] at this
        rw [← h.2]
        exact this
    · have key : ∀ (lit : Bytes) (w : JValue),
          (expectBytes lit rest).map (fun r => (w, r)) = some (v, r) →
            r.length < rest.length + 1 := by
        intro lit w hm
        cases hp : expectBytes lit rest with
        | none => rw [hp] at hm; cases hm
        | some p =>
          rw [hp] at hm
          simp only [Option.map_some', Option.some.injEq, Prod.mk.injEq] at hm
          have := expectBytes_length_le _ _ _ hp
          rw [← hm.2]
          omega
      split at h
      · exact key _ _ h
      · split at h
        · exact key _ _ h
        · split at h
          · exact key _ _ h
          · cases h

theorem map_eq_some_length {α β : Type} (x : Option (α × Bytes)) (f : α → β) (v : β) (r : Bytes)
    (n : Nat) (hx : ∀ a r1, x = some (a, r1) → r1.length < n)
    (h : x.map (fun p => (f p.1, p.2)) = some (v, r)) : r.length < n := by
  cases x with
  | none => cases h
  | some p =>
    simp only [Option.map_some', Option.some.injEq, Prod.mk.injEq] at h
    rw [← h.2]
    exact hx p.1 p.2 rfl

/-- The parser consumes input: what a successful call leaves is shorter than what it was
given. -/
theorem parse_length_lt (fuel : Nat) :
    (∀ depth inp v r, parseValue fuel depth inp = some (v, r) → r.length < inp.length) ∧
    (∀ depth inp ms r, parseMembers fuel depth inp = some (ms, r) → r.length < inp.length) ∧
    (∀ depth inp vs r, parseElems fuel depth inp = some (vs, r) → r.length < inp.length) := by
  induction fuel with
  | zero =>
    refine ⟨?_, ?_, ?_⟩
    · intro depth inp v r h
      rw [parseValue.eq_def] at h
      cases h
    · intro depth inp v r h
      rw [parseMembers.eq_def] at h
      cases h
    · intro depth inp v r h
      rw [parseElems.eq_def] at h
      cases h
  | succ fuel ih =>
    obtain ⟨ihV, ihM, ihE⟩ := ih
    refine ⟨?_, ?_, ?_⟩
    · intro depth inp v r h
      rw [parseValue.eq_def] at h
      simp only [] at h
      have hs := skipSpace_length_le inp
      cases hsp : skipSpace inp with
      | nil => rw [hsp] at h; cases h
      | cons c rest =>
        rw [hsp] at h hs
        simp only [List.length_cons] at h hs
        split at h
        · split at h
          · cases h
          · have hs2 := skipSpace_length_le rest
            cases hsp2 : skipSpace rest with
            | nil => rw [hsp2] at h; cases h
            | cons c1 rest1 =>
              rw [hsp2] at h hs2
              simp only [List.length_cons] at h hs2
              split at h
              · simp only [Option.some.injEq, Prod.mk.injEq] at h
                rw [← h.2]
                omega
              · refine map_eq_some_length _ JValue.object v r _ (fun a r1 ha => ?_) h
                have := ihM _ _ a r1 ha
                simp only [List.length_cons] at this
                omega
        · split at h
          · split at h
            · cases h
            · have hs2 := skipSpace_length_le rest
              cases hsp2 : skipSpace rest with
              | nil => rw [hsp2] at h; cases h
              | cons c1 rest1 =>
                rw [hsp2] at h hs2
                simp only [List.length_cons] at h hs2
                split at h
                · simp only [Option.some.injEq, Prod.mk.injEq] at h
                  rw [← h.2]
                  omega
                · refine map_eq_some_length _ JValue.array v r _ (fun a r1 ha => ?_) h
                  have := ihE _ _ a r1 ha
                  simp only [List.length_cons] at this
                  omega
          · have := parseScalar_length_lt c rest r v h
            simp only [List.length_cons] at this
            omega
    · intro depth inp ms r h
      rw [parseMembers.eq_def] at h
      simp only [] at h
      have hs := skipSpace_length_le inp
      cases hsp : skipSpace inp with
      | nil => rw [hsp] at h; cases h
      | cons q rest =>
        rw [hsp] at h hs
        simp only [List.length_cons] at h hs
        split at h
        · cases hk : parseString rest with
          | none => rw [hk] at h; cases h
          | some kp =>
            obtain ⟨key, rest1⟩ := kp
            rw [hk] at h
            simp only [] at h
            have hk1 := parseString_length_lt rest key rest1 hk
            have hs1 := skipSpace_length_le rest1
            cases hsp1 : skipSpace rest1 with
            | nil => rw [hsp1] at h; cases h
            | cons colon rest2 =>
              rw [hsp1] at h hs1
              simp only [List.length_cons] at h hs1
              split at h
              · cases hv : parseValue fuel depth rest2 with
                | none => rw [hv] at h; cases h
                | some vp =>
                  obtain ⟨v, rest3⟩ := vp
                  rw [hv] at h
                  simp only [] at h
                  have hv1 := ihV depth rest2 v rest3 hv
                  have hs3 := skipSpace_length_le rest3
                  cases hsp3 : skipSpace rest3 with
                  | nil => rw [hsp3] at h; cases h
                  | cons sep rest4 =>
                    rw [hsp3] at h hs3
                    simp only [List.length_cons] at h hs3
                    split at h
                    · refine map_eq_some_length _ (fun l => (key, v) :: l) ms r _
                        (fun a r1 ha => ?_) h
                      have := ihM _ _ a r1 ha
                      omega
                    · split at h
                      · simp only [Option.some.injEq, Prod.mk.injEq] at h
                        rw [← h.2]
                        omega
                      · cases h
              · cases h
        · cases h
    · intro depth inp vs r h
      rw [parseElems.eq_def] at h
      simp only [] at h
      cases hv : parseValue fuel depth inp with
      | none => rw [hv] at h; cases h
      | some vp =>
        obtain ⟨v, rest⟩ := vp
        rw [hv] at h
        simp only [] at h
        have hv1 := ihV depth inp v rest hv
        have hs := skipSpace_length_le rest
        cases hsp : skipSpace rest with
        | nil => rw [hsp] at h; cases h
        | cons sep rest1 =>
          rw [hsp] at h hs
          simp only [List.length_cons] at h hs
          split at h
          · refine map_eq_some_length _ (fun l => v :: l) vs r _ (fun a r1 ha => ?_) h
            have := ihE _ _ a r1 ha
            omega
          · split at h
            · simp only [Option.some.injEq, Prod.mk.injEq] at h
              rw [← h.2]
              omega
            · cases h

/-- The parser does not run out of steps: once the number of steps exceeds twice the length
of the input, more steps change nothing. -/
theorem parse_fuel (fuel1 : Nat) :
    ∀ (fuel2 depth : Nat) (inp : Bytes),
      (2 * inp.length < fuel1 → 2 * inp.length < fuel2 →
        parseValue fuel1 depth inp = parseValue fuel2 depth inp) ∧
      (2 * inp.length + 1 < fuel1 → 2 * inp.length + 1 < fuel2 →
        parseMembers fuel1 depth inp = parseMembers fuel2 depth inp) ∧
      (2 * inp.length + 1 < fuel1 → 2 * inp.length + 1 < fuel2 →
        parseElems fuel1 depth inp = parseElems fuel2 depth inp) := by
  induction fuel1 with
  | zero =>
    intro fuel2 depth inp
    exact ⟨fun h _ => absurd h (Nat.not_lt_zero _), fun h _ => absurd h (Nat.not_lt_zero _),
      fun h _ => absurd h (Nat.not_lt_zero _)⟩
  | succ f ih =>
    intro fuel2 depth inp
    cases fuel2 with
    | zero =>
      exact ⟨fun _ h => absurd h (Nat.not_lt_zero _), fun _ h => absurd h (Nat.not_lt_zero _),
        fun _ h => absurd h (Nat.not_lt_zero _)⟩
    | succ g =>
      refine ⟨?_, ?_, ?_⟩
      · intro h1 h2
        rw [parseValue.eq_def (f + 1) depth inp, parseValue.eq_def (g + 1) depth inp]
        simp only []
        have hs := skipSpace_length_le inp
        cases hsp : skipSpace inp with
        | nil => rfl
        | cons c rest =>
          rw [hsp] at hs
          simp only [List.length_cons] at hs ⊢
          have hs2 := skipSpace_length_le rest
          cases hsp2 : skipSpace rest with
          | nil => rfl
          | cons c1 rest1 =>
            rw [hsp2] at hs2
            simp only [List.length_cons] at hs2 ⊢
            have hlen : 2 * (c1 :: rest1).length + 1 < f ∧ 2 * (c1 :: rest1).length + 1 < g := by
              simp only [List.length_cons]
              omega
            rw [(ih g (depth + 1) (c1 :: rest1)).2.1 hlen.1 hlen.2,
              (ih g (depth + 1) (c1 :: rest1)).2.2 hlen.1 hlen.2]
      · intro h1 h2
        rw [parseMembers.eq_def (f + 1) depth inp, parseMembers.eq_def (g + 1) depth inp]
        simp only []
        have hs := skipSpace_length_le inp
        cases hsp : skipSpace inp with
        | nil => rfl
        | cons q rest =>
          rw [hsp] at hs
          simp only [List.length_cons] at hs ⊢
          by_cases hq : q = 0x22
          · rw [if_pos hq, if_pos hq]
            cases hk : parseString rest with
            | none => rfl
            | some kp =>
              obtain ⟨key, rest1⟩ := kp
              simp only []
              have hk1 := parseString_length_lt rest key rest1 hk
              have hs1 := skipSpace_length_le rest1
              cases hsp1 : skipSpace rest1 with
              | nil => rfl
              | cons colon rest2 =>
                rw [hsp1] at hs1
                simp only [List.length_cons] at hs1 ⊢
                by_cases hc : colon = 0x3A
                · rw [if_pos hc, if_pos hc]
                  rw [(ih g depth rest2).1 (by omega) (by omega)]
                  cases hv : parseValue g depth rest2 with
                  | none => rfl
                  | some vp =>
                    obtain ⟨v, rest3⟩ := vp
                    simp only []
                    have hv1 := (parse_length_lt g).1 depth rest2 v rest3 hv
                    have hs3 := skipSpace_length_le rest3
                    cases hsp3 : skipSpace rest3 with
                    | nil => rfl
                    | cons sep rest4 =>
                      rw [hsp3] at hs3
                      simp only [List.length_cons] at hs3 ⊢
                      rw [(ih g depth rest4).2.1 (by omega) (by omega)]
                · rw [if_neg hc, if_neg hc]
          · rw [if_neg hq, if_neg hq]
      · intro h1 h2
        rw [parseElems.eq_def (f + 1) depth inp, parseElems.eq_def (g + 1) depth inp]
        simp only []
        rw [(ih g depth inp).1 (by omega) (by omega)]
        cases hv : parseValue g depth inp with
        | none => rfl
        | some vp =>
          obtain ⟨v, rest⟩ := vp
          simp only []
          have hv1 := (parse_length_lt g).1 depth inp v rest hv
          have hs := skipSpace_length_le rest
          cases hsp : skipSpace rest with
          | nil => rfl
          | cons sep rest1 =>
            rw [hsp] at hs
            simp only [List.length_cons] at hs ⊢
            rw [(ih g depth rest1).2.2 (by omega) (by omega)]

/-- The value `readValue` reads is the value the parser finds with any larger number of
steps: the bound on the recursion is never what makes it fail. -/
theorem readValue_fuel (body : Bytes) (fuel : Nat) (h : 2 * body.length < fuel) :
    (parseValue fuel 0 body).map (fun p => p.1) = readValue body := by
  rw [readValue, (parse_fuel fuel (2 * body.length + 1) 0 body).1 h (Nat.lt_succ_self _)]

/-- The string scanner, likewise: `parseString` gives what any larger number of steps
gives. -/
theorem parseString_fuel (inp : Bytes) (fuel : Nat) (h : inp.length ≤ fuel) :
    parseStringBody fuel inp = parseString inp :=
  parseStringBody_fuel fuel inp.length inp h (Nat.le_refl _)

/-- The JSON string writer does not run out of steps: with as many steps as the source has
bytes, more steps change nothing. -/
theorem appendStringBody_fuel (fuel1 : Nat) :
    ∀ (fuel2 : Nat) (src : Bytes), src.length ≤ fuel1 → src.length ≤ fuel2 →
      appendStringBody fuel1 src = appendStringBody fuel2 src := by
  induction fuel1 with
  | zero =>
    intro fuel2 src h1 _
    have hnil : src = [] := List.length_eq_zero.mp (Nat.le_zero.mp h1)
    subst hnil
    rw [appendStringBody.eq_def, appendStringBody.eq_def]
    cases fuel2 <;> rfl
  | succ f ih =>
    intro fuel2 src h1 h2
    cases src with
    | nil =>
      rw [appendStringBody.eq_def, appendStringBody.eq_def]
      cases fuel2 <;> rfl
    | cons b rest =>
      cases fuel2 with
      | zero => simp at h2
      | succ g =>
        simp only [List.length_cons, Nat.add_le_add_iff_right] at h1 h2
        have hw := DecodeRune_width_pos b (rest.take 3)
        have hdrop : ((b :: rest).drop (DecodeRune ((b :: rest).take 4)).2).length ≤ rest.length := by
          have ht : (b :: rest).take 4 = b :: rest.take 3 := rfl
          rw [ht]
          simp only [List.length_drop, List.length_cons]
          omega
        rw [appendStringBody.eq_def (f + 1), appendStringBody.eq_def (g + 1)]
        simp only []
        rw [ih g rest h1 h2, ih g _ (Nat.le_trans hdrop h1) (Nat.le_trans hdrop h2)]

/-! ## UTF-8: decoding a valid rune and encoding it again -/

theorem byte_ofNat (a : Byte) (x : Nat) (h : x = a.val) : (Fin.ofNat x : Byte) = a := by
  subst h
  apply Fin.ext
  simp [Fin.ofNat, Nat.mod_eq_of_lt a.isLt]

theorem or_eq_add (x c k : Nat) (hx : x % 2 ^ k = 0) (hc : c < 2 ^ k) : x ||| c = x + c := by
  have h : x = 2 ^ k * (x / 2 ^ k) := by
    have := Nat.div_add_mod x (2 ^ k)
    omega
  rw [h, ← Nat.mul_add_lt_is_or hc]

theorem rune2_eq (b s1 : Nat) :
    (b &&& 0x1F) <<< 6 ||| (s1 &&& 0x3F) = b % 32 * 64 + s1 % 64 := by
  have e1 : b &&& 0x1F = b % 32 := Nat.and_pow_two_sub_one_eq_mod b 5
  have e2 : s1 &&& 0x3F = s1 % 64 := Nat.and_pow_two_sub_one_eq_mod s1 6
  rw [e1, e2, Nat.shiftLeft_eq]
  exact or_eq_add _ _ 6 (by omega) (by omega)

theorem rune3_eq (b s1 s2 : Nat) :
    (b &&& 0x0F) <<< 12 ||| (s1 &&& 0x3F) <<< 6 ||| (s2 &&& 0x3F) =
      b % 16 * 4096 + s1 % 64 * 64 + s2 % 64 := by
  have e1 : b &&& 0x0F = b % 16 := Nat.and_pow_two_sub_one_eq_mod b 4
  have e2 : s1 &&& 0x3F = s1 % 64 := Nat.and_pow_two_sub_one_eq_mod s1 6
  have e3 : s2 &&& 0x3F = s2 % 64 := Nat.and_pow_two_sub_one_eq_mod s2 6
  rw [e1, e2, e3, Nat.shiftLeft_eq, Nat.shiftLeft_eq]
  have h1 : b % 16 * 2 ^ 12 ||| s1 % 64 * 2 ^ 6 = b % 16 * 4096 + s1 % 64 * 64 :=
    or_eq_add _ _ 12 (by omega) (by omega)
  rw [h1]
  exact or_eq_add _ _ 6 (by omega) (by omega)

theorem rune4_eq (b s1 s2 s3 : Nat) :
    (b &&& 0x07) <<< 18 ||| (s1 &&& 0x3F) <<< 12 ||| (s2 &&& 0x3F) <<< 6 ||| (s3 &&& 0x3F) =
      b % 8 * 262144 + s1 % 64 * 4096 + s2 % 64 * 64 + s3 % 64 := by
  have e1 : b &&& 0x07 = b % 8 := Nat.and_pow_two_sub_one_eq_mod b 3
  have e2 : s1 &&& 0x3F = s1 % 64 := Nat.and_pow_two_sub_one_eq_mod s1 6
  have e3 : s2 &&& 0x3F = s2 % 64 := Nat.and_pow_two_sub_one_eq_mod s2 6
  have e4 : s3 &&& 0x3F = s3 % 64 := Nat.and_pow_two_sub_one_eq_mod s3 6
  rw [e1, e2, e3, e4, Nat.shiftLeft_eq, Nat.shiftLeft_eq, Nat.shiftLeft_eq]
  have h1 : b % 8 * 2 ^ 18 ||| s1 % 64 * 2 ^ 12 = b % 8 * 262144 + s1 % 64 * 4096 :=
    or_eq_add _ _ 18 (by omega) (by omega)
  have h2 : b % 8 * 262144 + s1 % 64 * 4096 ||| s2 % 64 * 2 ^ 6 =
      b % 8 * 262144 + s1 % 64 * 4096 + s2 % 64 * 64 :=
    or_eq_add _ _ 12 (by omega) (by omega)
  rw [h1, h2]
  exact or_eq_add _ _ 6 (by omega) (by omega)

theorem DecodeRune_ascii (b : Byte) (rest : Bytes) (h : b.val < 0x80) :
    DecodeRune (b :: rest) = (b.val, 1) := by
  rw [DecodeRune, if_pos h]

/-- The shape of `DecodeRune` on an input of at least two bytes whose first byte starts a
multi-byte rune, with the width and the bounds on the second byte as parameters. -/
theorem DecodeRune_multi (b s1 : Byte) (t : Bytes) (hb1 : 0xC2 ≤ b.val) (hb2 : b.val ≤ 0xF4)
    (sz lo hi : Nat)
    (hsz : (if b.val < 0xE0 then 2 else if b.val < 0xF0 then 3 else 4) = sz)
    (hlo : (if b.val = 0xE0 then 0xA0 else if b.val = 0xF0 then 0x90 else 0x80) = lo)
    (hhi : (if b.val = 0xED then 0x9F else if b.val = 0xF4 then 0x8F else 0xBF) = hi) :
    DecodeRune (b :: s1 :: t) =
      if s1.val < lo ∨ hi < s1.val then (RuneError, 1)
      else if sz ≤ 2 then ((b.val &&& 0x1F) <<< 6 ||| (s1.val &&& 0x3F), 2)
      else
        match t with
        | [] => (RuneError, 1)
        | s2 :: t2 =>
          if s2.val < 0x80 ∨ 0xBF < s2.val then (RuneError, 1)
          else if sz ≤ 3 then
            ((b.val &&& 0x0F) <<< 12 ||| (s1.val &&& 0x3F) <<< 6 ||| (s2.val &&& 0x3F), 3)
          else
            match t2 with
            | [] => (RuneError, 1)
            | s3 :: _ =>
              if s3.val < 0x80 ∨ 0xBF < s3.val then (RuneError, 1)
              else
                ((b.val &&& 0x07) <<< 18 ||| (s1.val &&& 0x3F) <<< 12 |||
                  (s2.val &&& 0x3F) <<< 6 ||| (s3.val &&& 0x3F), 4) := by
  subst hsz hlo hhi
  rw [DecodeRune, if_neg (by omega), if_neg (by omega)]
  rfl

theorem DecodeRune_two (b s1 : Byte) (t : Bytes) (hb1 : 0xC2 ≤ b.val) (hb2 : b.val < 0xE0)
    (h1 : 0x80 ≤ s1.val) (h2 : s1.val ≤ 0xBF) :
    DecodeRune (b :: s1 :: t) = (b.val % 32 * 64 + s1.val % 64, 2) := by
  rw [DecodeRune_multi b s1 t hb1 (by omega) 2 0x80 0xBF (by rw [if_pos hb2])
    (by rw [if_neg (by omega), if_neg (by omega)])
    (by rw [if_neg (by omega), if_neg (by omega)])]
  rw [if_neg (by omega), if_pos (Nat.le_refl 2), rune2_eq]

/-- The lowest second byte of a three-byte rune starting with `b`. -/
theorem DecodeRune_three (b s1 s2 : Byte) (t : Bytes) (hb1 : 0xE0 ≤ b.val) (hb2 : b.val < 0xF0)
    (lo hi : Nat) (hlo : (if b.val = 0xE0 then 0xA0 else 0x80) = lo)
    (hhi : (if b.val = 0xED then 0x9F else 0xBF) = hi)
    (h1 : lo ≤ s1.val) (h2 : s1.val ≤ hi) (h3 : 0x80 ≤ s2.val) (h4 : s2.val ≤ 0xBF) :
    DecodeRune (b :: s1 :: s2 :: t) =
      (b.val % 16 * 4096 + s1.val % 64 * 64 + s2.val % 64, 3) := by
  rw [DecodeRune_multi b s1 (s2 :: t) (by omega) (by omega) 3 lo hi
    (by rw [if_neg (by omega), if_pos hb2])
    (by rw [← hlo]; split <;> [rfl; rw [if_neg (by omega)]])
    (by rw [← hhi]; split <;> [rfl; rw [if_neg (by omega)]])]
  rw [if_neg (by omega), if_neg (by omega)]
  simp only []
  rw [if_neg (by omega), if_pos (Nat.le_refl 3), rune3_eq]

theorem DecodeRune_four (b s1 s2 s3 : Byte) (t : Bytes) (hb1 : 0xF0 ≤ b.val)
    (hb2 : b.val ≤ 0xF4) (lo hi : Nat) (hlo : (if b.val = 0xF0 then 0x90 else 0x80) = lo)
    (hhi : (if b.val = 0xF4 then 0x8F else 0xBF) = hi)
    (h1 : lo ≤ s1.val) (h2 : s1.val ≤ hi) (h3 : 0x80 ≤ s2.val) (h4 : s2.val ≤ 0xBF)
    (h5 : 0x80 ≤ s3.val) (h6 : s3.val ≤ 0xBF) :
    DecodeRune (b :: s1 :: s2 :: s3 :: t) =
      (b.val % 8 * 262144 + s1.val % 64 * 4096 + s2.val % 64 * 64 + s3.val % 64, 4) := by
  rw [DecodeRune_multi b s1 (s2 :: s3 :: t) (by omega) (by omega) 4 lo hi
    (by rw [if_neg (by omega), if_neg (by omega)])
    (by rw [← hlo, if_neg (by omega)])
    (by rw [← hhi, if_neg (by omega)])]
  rw [if_neg (by omega), if_neg (by omega)]
  simp only []
  rw [if_neg (by omega), if_neg (by omega), if_neg (by omega), rune4_eq]

/-- Every outcome of `DecodeRune` on a non-empty input: the error pair, an ASCII byte, or a
well-formed sequence of two, three or four bytes. -/
theorem DecodeRune_cases (b : Byte) (rest : Bytes) :
    DecodeRune (b :: rest) = (RuneError, 1) ∨
    b.val < 0x80 ∨
    (∃ s1 t, rest = s1 :: t ∧ 0xC2 ≤ b.val ∧ b.val < 0xE0 ∧ 0x80 ≤ s1.val ∧ s1.val ≤ 0xBF) ∨
    (∃ s1 s2 t, rest = s1 :: s2 :: t ∧ 0xE0 ≤ b.val ∧ b.val < 0xF0 ∧
      (if b.val = 0xE0 then 0xA0 else 0x80) ≤ s1.val ∧
      s1.val ≤ (if b.val = 0xED then 0x9F else 0xBF) ∧ 0x80 ≤ s2.val ∧ s2.val ≤ 0xBF) ∨
    (∃ s1 s2 s3 t, rest = s1 :: s2 :: s3 :: t ∧ 0xF0 ≤ b.val ∧ b.val ≤ 0xF4 ∧
      (if b.val = 0xF0 then 0x90 else 0x80) ≤ s1.val ∧
      s1.val ≤ (if b.val = 0xF4 then 0x8F else 0xBF) ∧ 0x80 ≤ s2.val ∧ s2.val ≤ 0xBF ∧
      0x80 ≤ s3.val ∧ s3.val ≤ 0xBF) := by
  by_cases h0 : b.val < 0x80
  · exact Or.inr (Or.inl h0)
  by_cases h1 : b.val < 0xC2 ∨ 0xF4 < b.val
  · left
    rw [DecodeRune, if_neg h0, if_pos h1]
  cases rest with
  | nil =>
    left
    rw [DecodeRune, if_neg h0, if_neg h1]
  | cons s1 t =>
    have hm := DecodeRune_multi b s1 t (by omega) (by omega) _ _ _ rfl rfl rfl
    by_cases hs1 : s1.val < (if b.val = 0xE0 then 0xA0 else if b.val = 0xF0 then 0x90 else 0x80) ∨
        (if b.val = 0xED then 0x9F else if b.val = 0xF4 then 0x8F else 0xBF) < s1.val
    · left
      rw [hm, if_pos hs1]
    rw [if_neg hs1] at hm
    by_cases h2 : b.val < 0xE0
    · right; right; left
      rw [if_neg (by omega), if_neg (by omega), if_neg (by omega), if_neg (by omega)] at hs1
      exact ⟨s1, t, rfl, by omega, h2, by omega, by omega⟩
    have hsz2 : ¬ (if b.val < 0xE0 then 2 else if b.val < 0xF0 then 3 else 4) ≤ 2 := by
      rw [if_neg h2]
      split <;> omega
    rw [if_neg hsz2] at hm
    cases t with
    | nil =>
      left
      rw [hm]
    | cons s2 t2 =>
      simp only [] at hm
      by_cases hs2 : s2.val < 0x80 ∨ 0xBF < s2.val
      · left
        rw [hm, if_pos hs2]
      rw [if_neg hs2] at hm
      by_cases h3 : b.val < 0xF0
      · right; right; right; left
        refine ⟨s1, s2, t2, rfl, by omega, h3, ?_, ?_, by omega, by omega⟩
        · split_ifs at hs1 ⊢ <;> omega
        · split_ifs at hs1 ⊢ <;> omega
      have hsz3 : ¬ (if b.val < 0xE0 then 2 else if b.val < 0xF0 then 3 else 4) ≤ 3 := by
        rw [if_neg h2, if_neg h3]
        omega
      rw [if_neg hsz3] at hm
      cases t2 with
      | nil =>
        left
        rw [hm]
      | cons s3 t3 =>
        simp only [] at hm
        by_cases hs3 : s3.val < 0x80 ∨ 0xBF < s3.val
        · left
          rw [hm, if_pos hs3]
        right; right; right; right
        refine ⟨s1, s2, s3, t3, rfl, by omega, by omega, ?_, ?_, by omega, by omega, by omega,
          by omega⟩
        · split_ifs at hs1 ⊢ <;> omega
        · split_ifs at hs1 ⊢ <;> omega

theorem EncodeRune_ascii (b : Byte) (h : b.val < 0x80) : EncodeRune b.val = [b] := by
  rw [EncodeRune, if_pos h, byte_ofNat b _ rfl]

theorem EncodeRune_two (b s1 : Byte) (hb1 : 0xC2 ≤ b.val) (hb2 : b.val < 0xE0)
    (h1 : 0x80 ≤ s1.val) (h2 : s1.val ≤ 0xBF) :
    EncodeRune (b.val % 32 * 64 + s1.val % 64) = [b, s1] := by
  rw [EncodeRune, if_neg (by omega), if_pos (by omega),
    byte_ofNat b _ (by omega), byte_ofNat s1 _ (by omega)]

theorem EncodeRune_three (b s1 s2 : Byte) (hb1 : 0xE0 ≤ b.val) (hb2 : b.val < 0xF0)
    (h1 : (if b.val = 0xE0 then 0xA0 else 0x80) ≤ s1.val)
    (h2 : s1.val ≤ (if b.val = 0xED then 0x9F else 0xBF))
    (h3 : 0x80 ≤ s2.val) (h4 : s2.val ≤ 0xBF) :
    EncodeRune (b.val % 16 * 4096 + s1.val % 64 * 64 + s2.val % 64) = [b, s1, s2] := by
  have g1 : 0x80 ≤ s1.val ∧ s1.val ≤ 0xBF := by split_ifs at h1 h2 <;> omega
  have g2 : 0x800 ≤ b.val % 16 * 4096 + s1.val % 64 * 64 + s2.val % 64 := by
    split_ifs at h1 h2 <;> omega
  have g3 : ¬ ((0xD800 ≤ b.val % 16 * 4096 + s1.val % 64 * 64 + s2.val % 64 ∧
      b.val % 16 * 4096 + s1.val % 64 * 64 + s2.val % 64 < 0xE000) ∨
      0x10FFFF < b.val % 16 * 4096 + s1.val % 64 * 64 + s2.val % 64) := by
    split_ifs at h1 h2 <;> omega
  rw [EncodeRune, if_neg (by omega), if_neg (by omega), if_neg g3, if_pos (by omega),
    byte_ofNat b _ (by omega), byte_ofNat s1 _ (by omega), byte_ofNat s2 _ (by omega)]

theorem EncodeRune_four (b s1 s2 s3 : Byte) (hb1 : 0xF0 ≤ b.val) (hb2 : b.val ≤ 0xF4)
    (h1 : (if b.val = 0xF0 then 0x90 else 0x80) ≤ s1.val)
    (h2 : s1.val ≤ (if b.val = 0xF4 then 0x8F else 0xBF))
    (h3 : 0x80 ≤ s2.val) (h4 : s2.val ≤ 0xBF) (h5 : 0x80 ≤ s3.val) (h6 : s3.val ≤ 0xBF) :
    EncodeRune (b.val % 8 * 262144 + s1.val % 64 * 4096 + s2.val % 64 * 64 + s3.val % 64) =
      [b, s1, s2, s3] := by
  have g1 : 0x80 ≤ s1.val ∧ s1.val ≤ 0xBF := by split_ifs at h1 h2 <;> omega
  have g2 : 0x10000 ≤ b.val % 8 * 262144 + s1.val % 64 * 4096 + s2.val % 64 * 64 + s3.val % 64 ∧
      b.val % 8 * 262144 + s1.val % 64 * 4096 + s2.val % 64 * 64 + s3.val % 64 ≤ 0x10FFFF := by
    split_ifs at h1 h2 <;> omega
  rw [EncodeRune, if_neg (by omega), if_neg (by omega), if_neg (by omega), if_neg (by omega),
    byte_ofNat b _ (by omega), byte_ofNat s1 _ (by omega), byte_ofNat s2 _ (by omega),
    byte_ofNat s3 _ (by omega)]

/-- `DecodeRune` looks at no more than the first four bytes. -/
theorem DecodeRune_take4 (p : Bytes) : DecodeRune (p.take 4) = DecodeRune p := by
  rcases p with _ | ⟨a, _ | ⟨b, _ | ⟨c, _ | ⟨d, t⟩⟩⟩⟩ <;> rfl

/-! ## JSON strings: scanning what `appendString` wrote -/

theorem htmlSafeSet_spec (b : Byte) (h : htmlSafeSet b = true) :
    b ≠ 0x22 ∧ b ≠ 0x5C ∧ 0x20 ≤ b.val ∧ b.val < 0x80 := by
  simp only [htmlSafeSet, Bool.and_eq_true, decide_eq_true_eq, bne_iff_ne, ne_eq] at h
  exact ⟨h.1.1.1.1.2, h.2, h.1.1.1.1.1.1, h.1.1.1.1.1.2⟩

theorem scan_plain (F : Nat) (c : Byte) (X : Bytes) (h1 : c ≠ 0x22) (h2 : c ≠ 0x5C)
    (h3 : 0x20 ≤ c.val) (h4 : c.val < 0x80) :
    parseStringBody (F + 1) (c :: X) = emit [c] (parseStringBody F X) := by
  rw [parseStringBody.eq_def]
  simp only []
  rw [if_neg h1, if_neg h2, if_neg (by omega), if_pos h4]

theorem scan_escape (F : Nat) (e b : Byte) (X : Bytes) (he : escapeByte e = some b)
    (hne : e ≠ 0x75) :
    parseStringBody (F + 1) (0x5C :: e :: X) = emit [b] (parseStringBody F X) := by
  rw [parseStringBody.eq_def]
  simp only [↓reduceIte, hne, he]
  rw [if_neg (by decide)]

theorem scan_u4 (F : Nat) (c1 c2 c3 c4 : Byte) (X : Bytes) (v : Nat)
    (hv : getu4 (0x5C :: 0x75 :: c1 :: c2 :: c3 :: c4 :: X) = some v)
    (hs : utf16IsSurrogate v = false) :
    parseStringBody (F + 1) (0x5C :: 0x75 :: c1 :: c2 :: c3 :: c4 :: X) =
      emit (EncodeRune v) (parseStringBody F X) := by
  rw [parseStringBody.eq_def]
  simp only [↓reduceIte, hv, hs]
  rfl

theorem scan_raw (F : Nat) (c : Byte) (Y : Bytes) (h : 0x80 ≤ c.val) :
    parseStringBody (F + 1) (c :: Y) =
      emit (EncodeRune (DecodeRune (c :: Y)).1)
        (parseStringBody F ((c :: Y).drop (DecodeRune (c :: Y)).2)) := by
  have h1 : c ≠ 0x22 := by
    intro hc
    rw [hc] at h
    exact absurd h (by decide)
  have h2 : c ≠ 0x5C := by
    intro hc
    rw [hc] at h
    exact absurd h (by decide)
  rw [parseStringBody.eq_def]
  simp only []
  rw [if_neg h1, if_neg h2, if_neg (by omega), if_neg (by omega)]

theorem getu4_append (c0 c1 c2 c3 c4 c5 : Byte) (X : Bytes) :
    getu4 (c0 :: c1 :: c2 :: c3 :: c4 :: c5 :: X) = getu4 [c0, c1, c2, c3, c4, c5] := rfl

set_option maxRecDepth 1000000 in
/-- What `appendString` writes for an ASCII byte outside `htmlSafeSet` is either a
two-character escape or a `\u00XX` escape, and in both forms it names the byte. -/
theorem escapeASCII_names_byte : ∀ b : Byte, b.val < 0x80 → htmlSafeSet b = false →
    (escapeASCII b = [0x5C, (escapeASCII b).getD 1 0] ∧ (escapeASCII b).getD 1 0 ≠ 0x75 ∧
      escapeByte ((escapeASCII b).getD 1 0) = some b) ∨
    (escapeASCII b = [0x5C, 0x75, (escapeASCII b).getD 2 0, (escapeASCII b).getD 3 0,
        (escapeASCII b).getD 4 0, (escapeASCII b).getD 5 0] ∧
      getu4 (escapeASCII b) = some b.val) := by
  decide

theorem write_ascii (m : Nat) (b : Byte) (rest : Bytes) (h : b.val < 0x80) :
    appendStringBody (m + 1) (b :: rest) =
      (if htmlSafeSet b = true then [b] else escapeASCII b) ++ appendStringBody m rest := by
  rw [appendStringBody.eq_def]
  simp only []
  rw [if_pos h]
  split <;> rfl

theorem write_rune (m : Nat) (b : Byte) (rest : Bytes) (h : ¬ b.val < 0x80)
    (hv : ¬((DecodeRune (b :: rest)).1 = RuneError ∧ (DecodeRune (b :: rest)).2 = 1)) :
    appendStringBody (m + 1) (b :: rest) =
      (if (DecodeRune (b :: rest)).1 = 0x2028 ∨ (DecodeRune (b :: rest)).1 = 0x2029 then
          str "\\u202" ++ [hex ((DecodeRune (b :: rest)).1 &&& 0xF)]
        else (b :: rest).take (DecodeRune (b :: rest)).2) ++
        appendStringBody m ((b :: rest).drop (DecodeRune (b :: rest)).2) := by
  rw [appendStringBody.eq_def]
  simp only []
  rw [if_neg h, DecodeRune_take4, if_neg hv]
  split <;> rfl

/-- One rune of a valid source: what `appendString` writes for it, and that the scanner reads
exactly the bytes of the rune back from it. -/
theorem rune_step (m : Nat) (b : Byte) (rest : Bytes)
    (hv : ¬((DecodeRune (b :: rest)).1 = RuneError ∧ (DecodeRune (b :: rest)).2 = 1)) :
    ∃ W : Bytes, 1 ≤ W.length ∧
      appendStringBody (m + 1) (b :: rest) =
        W ++ appendStringBody m ((b :: rest).drop (DecodeRune (b :: rest)).2) ∧
      ∀ (F : Nat) (X : Bytes), parseStringBody (F + 1) (W ++ X) =
        emit ((b :: rest).take (DecodeRune (b :: rest)).2) (parseStringBody F X) := by
  rcases DecodeRune_cases b rest with h | h | ⟨s1, t, rfl, hb1, hb2, h1, h2⟩ |
      ⟨s1, s2, t, rfl, hb1, hb2, h1, h2, h3, h4⟩ |
      ⟨s1, s2, s3, t, rfl, hb1, hb2, h1, h2, h3, h4, h5, h6⟩
  · rw [h] at hv
    exact absurd ⟨rfl, rfl⟩ hv
  · -- an ASCII byte
    have hd := DecodeRune_ascii b rest h
    rw [hd]
    by_cases hsafe : htmlSafeSet b = true
    · obtain ⟨g1, g2, g3, g4⟩ := htmlSafeSet_spec b hsafe
      refine ⟨[b], Nat.le_refl 1, ?_, fun F X => ?_⟩
      · rw [write_ascii m b rest h, if_pos hsafe]
        rfl
      · exact scan_plain F b X g1 g2 g3 g4
    · have hsafe2 : htmlSafeSet b = false := by
        cases hb : htmlSafeSet b
        · rfl
        · exact absurd hb hsafe
      refine ⟨escapeASCII b, ?_, ?_, fun F X => ?_⟩
      · rcases escapeASCII_names_byte b h hsafe2 with ⟨e1, _, _⟩ | ⟨e1, _⟩ <;> rw [e1] <;> simp
      · rw [write_ascii m b rest h, if_neg hsafe]
        rfl
      · rcases escapeASCII_names_byte b h hsafe2 with ⟨e1, e2, e3⟩ | ⟨e1, e2⟩
        · rw [e1]
          exact scan_escape F _ b X e3 e2
        · rw [e1] at e2 ⊢
          have hu := scan_u4 F _ _ _ _ X b.val (by rw [getu4_append]; exact e2)
            (by
              simp only [utf16IsSurrogate, decide_eq_false_iff_not]
              omega)
          rw [EncodeRune_ascii b h] at hu
          exact hu
  · -- two bytes
    have hd := DecodeRune_two b s1 t hb1 hb2 h1 h2
    have hw := write_rune m b (s1 :: t) (by omega) hv
    rw [hd] at hw ⊢
    refine ⟨[b, s1], by simp, ?_, fun F X => ?_⟩
    · rw [hw, if_neg (by simp only []; omega)]
      rfl
    · have hs := scan_raw F b (s1 :: X) (by omega)
      rw [DecodeRune_two b s1 X hb1 hb2 h1 h2, EncodeRune_two b s1 hb1 hb2 h1 h2] at hs
      exact hs
  · -- three bytes
    have hd := DecodeRune_three b s1 s2 t hb1 hb2 _ _ rfl rfl h1 h2 h3 h4
    have hw := write_rune m b (s1 :: s2 :: t) (by omega) hv
    have henc := EncodeRune_three b s1 s2 hb1 hb2 h1 h2 h3 h4
    rw [hd] at hw ⊢
    by_cases hsep : b.val % 16 * 4096 + s1.val % 64 * 64 + s2.val % 64 = 0x2028 ∨
        b.val % 16 * 4096 + s1.val % 64 * 64 + s2.val % 64 = 0x2029
    · refine ⟨str "\\u202" ++ [hex ((b.val % 16 * 4096 + s1.val % 64 * 64 + s2.val % 64) &&& 0xF)],
        by simp, ?_, fun F X => ?_⟩
      · rw [hw, if_pos hsep]
      · rcases hsep with hr | hr
        · rw [hr] at henc ⊢
          have hu := scan_u4 F 0x32 0x30 0x32 0x38 X 0x2028 rfl rfl
          rw [henc] at hu
          exact hu
        · rw [hr] at henc ⊢
          have hu := scan_u4 F 0x32 0x30 0x32 0x39 X 0x2029 rfl rfl
          rw [henc] at hu
          exact hu
    · refine ⟨[b, s1, s2], by simp, ?_, fun F X => ?_⟩
      · rw [hw, if_neg hsep]
        rfl
      · have hs := scan_raw F b (s1 :: s2 :: X) (by omega)
        rw [DecodeRune_three b s1 s2 X hb1 hb2 _ _ rfl rfl h1 h2 h3 h4, henc] at hs
        exact hs
  · -- four bytes
    have hd := DecodeRune_four b s1 s2 s3 t hb1 hb2 _ _ rfl rfl h1 h2 h3 h4 h5 h6
    have hw := write_rune m b (s1 :: s2 :: s3 :: t) (by omega) hv
    have henc := EncodeRune_four b s1 s2 s3 hb1 hb2 h1 h2 h3 h4 h5 h6
    have hbig : 0x10000 ≤
        b.val % 8 * 262144 + s1.val % 64 * 4096 + s2.val % 64 * 64 + s3.val % 64 := by
      split_ifs at h1 h2 <;> omega
    rw [hd] at hw ⊢
    refine ⟨[b, s1, s2, s3], by simp, ?_, fun F X => ?_⟩
    · rw [hw, if_neg (by simp only []; omega)]
      rfl
    · have hs := scan_raw F b (s1 :: s2 :: s3 :: X) (by omega)
      rw [DecodeRune_four b s1 s2 s3 X hb1 hb2 _ _ rfl rfl h1 h2 h3 h4 h5 h6, henc] at hs
      exact hs

/-! ## Arithmetic of the encoder -/

theorem encTable_eq_alphabetChar : ∀ v : Fin 64, encTable v.val = alphabetChar v.val := by
  decide

theorem pack3 (a b c : Nat) (hb : b < 256) (hc : c < 256) :
    a <<< 16 ||| b <<< 8 ||| c = a * 65536 + b * 256 + c := by
  have h1 : a <<< 16 ||| b <<< 8 = 2 ^ 16 * a + b * 256 := by
    rw [Nat.shiftLeft_eq, Nat.shiftLeft_eq, Nat.mul_comm a]
    exact (Nat.mul_add_lt_is_or (by omega) a).symm
  have h2 : (a * 256 + b) * 256 = 2 ^ 8 * (a * 256 + b) := by omega
  have h3 : a <<< 16 ||| b <<< 8 = 2 ^ 8 * (a * 256 + b) := by rw [h1]; omega
  rw [h3, ← Nat.mul_add_lt_is_or (by omega) _]
  omega

theorem sextet_eq (val k : Nat) : val >>> k &&& 0x3F = val / 2 ^ k % 64 := by
  rw [Nat.shiftRight_eq_div_pow]
  exact Nat.and_pow_two_sub_one_eq_mod _ 6

theorem sextet0_eq (val : Nat) : val &&& 0x3F = val % 64 :=
  Nat.and_pow_two_sub_one_eq_mod _ 6

theorem pack2 (a b : Nat) (hb : b < 256) : a <<< 16 ||| b <<< 8 = a * 65536 + b * 256 := by
  rw [Nat.shiftLeft_eq, Nat.shiftLeft_eq, Nat.mul_comm a]
  have h := (Nat.mul_add_lt_is_or (show b * 2 ^ 8 < 2 ^ 16 by omega) a).symm
  rw [h]
  omega

theorem encTable_of (v w : Nat) (h : v = w) (hw : w < 64) : encTable v = alphabetChar w := by
  subst h
  exact encTable_eq_alphabetChar ⟨v, hw⟩

/-- The four characters `Encode` writes for a full group of three bytes. -/
theorem Encode_cons3 (a b c : Byte) (rest : Bytes) :
    Encode (a :: b :: c :: rest) =
      alphabetChar (a.val / 4) :: alphabetChar (a.val % 4 * 16 + b.val / 16) ::
        alphabetChar (b.val % 16 * 4 + c.val / 64) :: alphabetChar (c.val % 64) ::
          Encode rest := by
  have ha := a.isLt
  have hb := b.isLt
  have hc := c.isLt
  rw [Encode]
  simp only [pack3 a.val b.val c.val hb hc, sextet_eq, sextet0_eq]
  rw [encTable_of _ (a.val / 4) (by omega) (by omega),
    encTable_of _ (a.val % 4 * 16 + b.val / 16) (by omega) (by omega),
    encTable_of _ (b.val % 16 * 4 + c.val / 64) (by omega) (by omega),
    encTable_of _ (c.val % 64) (by omega) (by omega)]

theorem Encode_two (a b : Byte) :
    Encode [a, b] =
      [alphabetChar (a.val / 4), alphabetChar (a.val % 4 * 16 + b.val / 16),
        alphabetChar (b.val % 16 * 4), StdPadding] := by
  have ha := a.isLt
  have hb := b.isLt
  rw [Encode]
  simp only [pack2 a.val b.val hb, sextet_eq]
  rw [encTable_of _ (a.val / 4) (by omega) (by omega),
    encTable_of _ (a.val % 4 * 16 + b.val / 16) (by omega) (by omega),
    encTable_of _ (b.val % 16 * 4) (by omega) (by omega)]

theorem Encode_one (a : Byte) :
    Encode [a] =
      [alphabetChar (a.val / 4), alphabetChar (a.val % 4 * 16), StdPadding, StdPadding] := by
  have ha := a.isLt
  rw [Encode]
  simp only [Nat.shiftLeft_eq, sextet_eq]
  rw [encTable_of _ (a.val / 4) (by omega) (by omega),
    encTable_of _ (a.val % 4 * 16) (by omega) (by omega)]

theorem sextets_bits3 (a b c : Byte) (bits : List Nat) :
    sextets (bitsOfByte a ++ (bitsOfByte b ++ (bitsOfByte c ++ bits))) =
      a.val / 4 :: (a.val % 4 * 16 + b.val / 16) :: (b.val % 16 * 4 + c.val / 64) ::
        c.val % 64 :: sextets bits := by
  have ha := a.isLt
  have hb := b.isLt
  have hc := c.isLt
  simp only [bitsOfByte, List.cons_append, List.nil_append]
  rw [sextets, sextets, sextets, sextets]
  simp only [natOfBits, List.foldl_cons, List.foldl_nil, Nat.mul_zero, Nat.zero_add]
  congr 1
  · omega
  congr 1
  · omega
  congr 1
  · omega
  congr 1
  omega

theorem sextets_bits2 (a b : Byte) :
    sextets (bitsOfByte a ++ bitsOfByte b) =
      [a.val / 4, a.val % 4 * 16 + b.val / 16, b.val % 16 * 4] := by
  have ha := a.isLt
  have hb := b.isLt
  simp only [bitsOfByte, List.cons_append, List.nil_append]
  rw [sextets, sextets]
  simp only [sextets, natOfBits, List.foldl_cons, List.foldl_nil, Nat.mul_zero, Nat.zero_add,
    List.length_cons, List.length_nil, List.cons_append, List.nil_append, List.replicate]
  congr 1
  · omega
  congr 1
  · omega
  congr 1
  omega

theorem sextets_bits1 (a : Byte) :
    sextets (bitsOfByte a) = [a.val / 4, a.val % 4 * 16] := by
  have ha := a.isLt
  simp only [bitsOfByte]
  rw [sextets]
  simp only [sextets, natOfBits, List.foldl_cons, List.foldl_nil, Nat.mul_zero, Nat.zero_add,
    List.length_cons, List.length_nil, List.cons_append, List.nil_append, List.replicate]
  congr 1
  · omega
  congr 1
  omega

theorem base64Text_cons3 (a b c : Byte) (rest : Bytes) :
    base64Text (a :: b :: c :: rest) =
      alphabetChar (a.val / 4) :: alphabetChar (a.val % 4 * 16 + b.val / 16) ::
        alphabetChar (b.val % 16 * 4 + c.val / 64) :: alphabetChar (c.val % 64) ::
          base64Text rest := by
  have hpad : ∀ n : Nat, (4 - (n + 1 + 1 + 1 + 1) % 4) % 4 = (4 - n % 4) % 4 := by
    intro n
    omega
  unfold base64Text
  rw [List.flatMap_cons, List.flatMap_cons, List.flatMap_cons, sextets_bits3]
  simp only [List.map_cons, List.length_cons, hpad, List.cons_append]

/-- Refinement: the text Go's `Encode` produces is the RFC 4648 base64 text of the input. -/
theorem Encode_eq_base64Text (src : Bytes) : Encode src = base64Text src := by
  induction src using Encode.induct with
  | case1 a b c rest ih => rw [Encode_cons3, base64Text_cons3, ih]
  | case2 a b =>
    rw [Encode_two]
    unfold base64Text
    rw [List.flatMap_cons, List.flatMap_cons, List.flatMap_nil, List.append_nil, sextets_bits2]
    rfl
  | case3 a =>
    rw [Encode_one]
    unfold base64Text
    rw [List.flatMap_cons, List.flatMap_nil, List.append_nil, sextets_bits1]
    rfl
  | case4 => rfl

theorem decodeChar_alphabetChar : ∀ v : Fin 64, decodeChar (alphabetChar v.val) = some v.val := by
  decide

theorem alphabetChar_ne_padding : ∀ v : Fin 64, alphabetChar v.val ≠ StdPadding := by
  decide

theorem decodeChar_of (v : Nat) (hv : v < 64) : decodeChar (alphabetChar v) = some v :=
  decodeChar_alphabetChar ⟨v, hv⟩

theorem alphabetChar_ne_of (v : Nat) (hv : v < 64) : alphabetChar v ≠ StdPadding :=
  alphabetChar_ne_padding ⟨v, hv⟩

/-- Round trip of the library functions: decoding the text `Encode` produces gives the
bytes back. -/
theorem base64Decode_Encode (src : Bytes) : base64Decode (Encode src) = some src := by
  induction src using Encode.induct with
  | case1 a b c rest ih =>
    have ha := a.isLt
    have hb := b.isLt
    have hc := c.isLt
    rw [Encode_cons3, base64Decode]
    have h3 := alphabetChar_ne_of (b.val % 16 * 4 + c.val / 64) (by omega)
    have h4 := alphabetChar_ne_of (c.val % 64) (by omega)
    rw [if_neg (fun h => h3 h.1), if_neg (fun h => h4 h.1)]
    rw [decodeChar_of _ (by omega), decodeChar_of _ (by omega), decodeChar_of _ (by omega),
      decodeChar_of _ (by omega), ih]
    simp only
    rw [byte_ofNat a _ (by omega), byte_ofNat b _ (by omega), byte_ofNat c _ (by omega)]
  | case2 a b =>
    have ha := a.isLt
    have hb := b.isLt
    rw [Encode_two, base64Decode]
    have h3 := alphabetChar_ne_of (b.val % 16 * 4) (by omega)
    rw [if_neg (fun h => h3 h.1), if_pos ⟨rfl, rfl⟩]
    rw [decodeChar_of _ (by omega), decodeChar_of _ (by omega), decodeChar_of _ (by omega)]
    simp only
    rw [byte_ofNat a _ (by omega), byte_ofNat b _ (by omega)]
  | case3 a =>
    have ha := a.isLt
    rw [Encode_one, base64Decode]
    rw [if_pos ⟨rfl, rfl, rfl⟩]
    rw [decodeChar_of _ (by omega), decodeChar_of _ (by omega)]
    simp only
    rw [byte_ofNat a _ (by omega)]
  | case4 => rfl

theorem htmlSafeSet_alphabetChar : ∀ v : Fin 64, htmlSafeSet (alphabetChar v.val) = true := by
  decide

theorem htmlSafeSet_of (v : Nat) (hv : v < 64) : htmlSafeSet (alphabetChar v) = true :=
  htmlSafeSet_alphabetChar ⟨v, hv⟩

/-- The text `Encode` produces holds no byte the JSON encoder escapes. -/
theorem Encode_safe (src : Bytes) : ∀ x ∈ Encode src, htmlSafeSet x = true := by
  have hpad : htmlSafeSet StdPadding = true := by decide
  induction src using Encode.induct with
  | case1 a b c rest ih =>
    have ha := a.isLt
    have hb := b.isLt
    have hc := c.isLt
    rw [Encode_cons3]
    intro x hx
    simp only [List.mem_cons] at hx
    rcases hx with h | h | h | h | h
    · rw [h]; exact htmlSafeSet_of _ (by omega)
    · rw [h]; exact htmlSafeSet_of _ (by omega)
    · rw [h]; exact htmlSafeSet_of _ (by omega)
    · rw [h]; exact htmlSafeSet_of _ (by omega)
    · exact ih x h
  | case2 a b =>
    have ha := a.isLt
    have hb := b.isLt
    rw [Encode_two]
    intro x hx
    simp only [List.mem_cons, List.not_mem_nil, or_false] at hx
    rcases hx with h | h | h | h
    · rw [h]; exact htmlSafeSet_of _ (by omega)
    · rw [h]; exact htmlSafeSet_of _ (by omega)
    · rw [h]; exact htmlSafeSet_of _ (by omega)
    · rw [h]; exact hpad
  | case3 a =>
    have ha := a.isLt
    rw [Encode_one]
    intro x hx
    simp only [List.mem_cons, List.not_mem_nil, or_false] at hx
    rcases hx with h | h | h | h
    · rw [h]; exact htmlSafeSet_of _ (by omega)
    · rw [h]; exact htmlSafeSet_of _ (by omega)
    · rw [h]; exact hpad
    · rw [h]; exact hpad
  | case4 =>
    intro x hx
    cases hx

/-! ## Reading back what the encoder wrote -/

theorem emit_some (out s rest : Bytes) : emit out (some (s, rest)) = some (out ++ s, rest) := rfl

/-- Scanning a run of bytes that need no escape copies them. -/
theorem parseStringBody_safe (t : Bytes) (ht : ∀ b ∈ t, htmlSafeSet b = true) :
    ∀ (fuel : Nat) (rest : Bytes),
      parseStringBody (t.length + fuel) (t ++ rest) = emit t (parseStringBody fuel rest) := by
  induction t with
  | nil =>
    intro fuel rest
    simp only [List.length_nil, Nat.zero_add, List.nil_append, emit, List.nil_append]
    cases parseStringBody fuel rest <;> rfl
  | cons b t ih =>
    intro fuel rest
    obtain ⟨h1, h2, h3, h4⟩ := htmlSafeSet_spec b (ht b (List.mem_cons_self b t))
    have hfuel : (b :: t).length + fuel = (t.length + fuel) + 1 := by
      simp only [List.length_cons]
      omega
    rw [hfuel, List.cons_append, parseStringBody.eq_def]
    simp only []
    rw [if_neg h1, if_neg h2, if_neg (by omega), if_pos h4,
      ih (fun x hx => ht x (List.mem_cons_of_mem b hx))]
    cases parseStringBody fuel rest <;> rfl

/-- Writing a run of bytes that need no escape copies them. -/
theorem appendStringBody_safe (t : Bytes) (ht : ∀ b ∈ t, htmlSafeSet b = true) :
    ∀ (fuel : Nat) (rest : Bytes),
      appendStringBody (t.length + fuel) (t ++ rest) = t ++ appendStringBody fuel rest := by
  induction t with
  | nil =>
    intro fuel rest
    simp
  | cons b t ih =>
    intro fuel rest
    obtain ⟨h1, h2, h3, h4⟩ := htmlSafeSet_spec b (ht b (List.mem_cons_self b t))
    have hfuel : (b :: t).length + fuel = (t.length + fuel) + 1 := by
      simp only [List.length_cons]
      omega
    rw [hfuel, List.cons_append, appendStringBody]
    rw [if_pos h4, if_pos (ht b (List.mem_cons_self b t)),
      ih (fun x hx => ht x (List.mem_cons_of_mem b hx))]
    rfl

/-- The JSON text of a response whose field is a line of bytes that need no escape. -/
theorem marshalResponse_line (t : Bytes) (ht : ∀ b ∈ t, htmlSafeSet b = true) :
    marshalResponse { Encoded := t ++ [10] } =
      str "\x7b\"encoded\":\"" ++ (t ++ str "\\n\"\x7d") := by
  have h := appendStringBody_safe t ht 1 [10]
  have hlen : (t ++ [10]).length = t.length + 1 := by simp
  simp only [marshalResponse, appendString, hlen, h]
  have h1 : appendStringBody 1 [10] = str "\\n" := by decide
  rw [h1]
  have h2 : str "\x7b\"encoded\":" ++ ([0x22] ++ (t ++ str "\\n") ++ [0x22]) ++ str "\x7d" =
      (str "\x7b\"encoded\":" ++ [0x22]) ++ (t ++ (str "\\n" ++ [0x22] ++ str "\x7d")) := by
    simp only [List.append_assoc]
  rw [h2]
  rfl

theorem parseStringBody_quote (fuel : Nat) (rest : Bytes) :
    parseStringBody (fuel + 1) (0x22 :: rest) = some ([], rest) := rfl

theorem parseStringBody_newline (fuel : Nat) (rest : Bytes) :
    parseStringBody (fuel + 1) (0x5C :: 0x6E :: rest) = emit [10] (parseStringBody fuel rest) :=
  rfl

theorem parseString_key_encoded (rest : Bytes) :
    parseString (str "encoded\"" ++ rest) = some (str "encoded", rest) := by
  have hs : (str "encoded").all htmlSafeSet = true := by decide
  have h := parseStringBody_safe (str "encoded") (fun b hb => List.all_eq_true.mp hs b hb)
    (rest.length + 1) (0x22 :: rest)
  have hlen : (str "encoded\"" ++ rest).length = (str "encoded").length + (rest.length + 1) := by
    rw [List.length_append]
    have h1 : (str "encoded\"").length = 8 := rfl
    have h2 : (str "encoded").length = 7 := rfl
    omega
  have hsplit : str "encoded\"" ++ rest = str "encoded" ++ 0x22 :: rest := rfl
  rw [parseString, hlen, hsplit, h, parseStringBody_quote]
  rfl

theorem parseString_line (t : Bytes) (ht : ∀ b ∈ t, htmlSafeSet b = true) (rest : Bytes) :
    parseString (t ++ str "\\n\"" ++ rest) = some (t ++ [10], rest) := by
  have h := parseStringBody_safe t ht (rest.length + 3) (str "\\n\"" ++ rest)
  have hlen : (t ++ str "\\n\"" ++ rest).length = t.length + (rest.length + 3) := by
    rw [List.length_append, List.length_append]
    have : (str "\\n\"").length = 3 := rfl
    omega
  have hs : str "\\n\"" ++ rest = 0x5C :: 0x6E :: 0x22 :: rest := rfl
  rw [parseString, hlen, List.append_assoc, h, hs, parseStringBody_newline,
    parseStringBody_quote]
  rfl

theorem parseValue_string (fuel depth : Nat) (rest : Bytes) :
    parseValue (fuel + 1) depth (0x22 :: rest) =
      (parseString rest).map (fun p => (JValue.string p.1, p.2)) := rfl

theorem parseValue_object (fuel : Nat) (rest : Bytes) :
    parseValue (fuel + 1) 0 (0x7B :: 0x22 :: rest) =
      (parseMembers fuel 1 (0x22 :: rest)).map (fun p => (JValue.object p.1, p.2)) := rfl

theorem parseMembers_single (fuel depth : Nat) (rest rest2 rest4 key : Bytes) (v : JValue)
    (hkey : parseString rest = some (key, 0x3A :: rest2))
    (hval : parseValue fuel depth rest2 = some (v, 0x7D :: rest4)) :
    parseMembers (fuel + 1) depth (0x22 :: rest) = some ([(key, v)], rest4) := by
  have h1 : ∀ r : Bytes, skipSpace (0x22 :: r) = 0x22 :: r := fun _ => rfl
  have h2 : ∀ r : Bytes, skipSpace (0x3A :: r) = 0x3A :: r := fun _ => rfl
  have h3 : ∀ r : Bytes, skipSpace (0x7D :: r) = 0x7D :: r := fun _ => rfl
  rw [parseMembers.eq_def]
  simp [h1, h2, h3, hkey, hval]

/-- A client reading the response written for a line of bytes that need no escape gets the
line back, newline included. -/
theorem decode_marshal_line (t : Bytes) (ht : ∀ b ∈ t, htmlSafeSet b = true) :
    decodeStringField (str "encoded") (marshalResponse { Encoded := t ++ [10] } ++ [10]) =
      Except.ok (t ++ [10]) := by
  have hbody : marshalResponse { Encoded := t ++ [10] } ++ [10] =
      0x7B :: 0x22 :: (str "encoded\"" ++ (0x3A :: 0x22 :: (t ++ str "\\n\"" ++ [0x7D, 10]))) := by
    rw [marshalResponse_line t ht]
    simp only [List.append_assoc]
    rfl
  have hlen : 2 * (marshalResponse { Encoded := t ++ [10] } ++ [10]).length + 1 =
      (2 * t.length + 32 + 1 + 1) + 1 := by
    rw [hbody]
    have h1 : (str "encoded\"").length = 8 := rfl
    have h2 : (str "\\n\"").length = 3 := rfl
    simp only [List.length_cons, List.length_append, List.length_nil, h1, h2]
    omega
  have hval : parseValue (2 * t.length + 32 + 1) 1 (0x22 :: (t ++ str "\\n\"" ++ [0x7D, 10])) =
      some (JValue.string (t ++ [10]), [0x7D, 10]) := by
    rw [parseValue_string, parseString_line t ht]
    rfl
  have hmem := parseMembers_single (2 * t.length + 32 + 1) 1 _ _ [10] _ _
    (parseString_key_encoded (0x3A :: 0x22 :: (t ++ str "\\n\"" ++ [0x7D, 10]))) hval
  have hread : readValue (marshalResponse { Encoded := t ++ [10] } ++ [10]) =
      some (JValue.object [(str "encoded", JValue.string (t ++ [10]))]) := by
    rw [readValue, hlen, hbody, parseValue_object, hmem]
    rfl
  rw [decodeStringField, hread]
  rfl

/-! ## Decoding what `json.Marshal` wrote for a request -/

/-- The scanner reads back what `appendString` wrote between the quotes for a valid UTF-8
source: the source itself. -/
theorem scan_appendStringBody (n : Nat) :
    ∀ (src : Bytes), validBody n src = true → ∀ (F : Nat) (tail : Bytes),
      (appendStringBody n src).length < F →
        parseStringBody F (appendStringBody n src ++ 0x22 :: tail) = some (src, tail) := by
  induction n with
  | zero =>
    intro src hv F tail hF
    have hsrc : src = [] := by
      cases src with
      | nil => rfl
      | cons b t => simp [validBody] at hv
    subst hsrc
    cases F with
    | zero => exact absurd hF (Nat.not_lt_zero _)
    | succ F => rfl
  | succ m ih =>
    intro src hv F tail hF
    cases src with
    | nil =>
      cases F with
      | zero => exact absurd hF (Nat.not_lt_zero _)
      | succ F => rfl
    | cons b rest =>
      rw [validBody.eq_def] at hv
      simp only [] at hv
      have hgood : ¬((DecodeRune (b :: rest)).1 = RuneError ∧ (DecodeRune (b :: rest)).2 = 1) := by
        intro hbad
        rw [if_pos hbad] at hv
        cases hv
      rw [if_neg hgood] at hv
      obtain ⟨W, hW, hwrite, hscan⟩ := rune_step m b rest hgood
      rw [hwrite] at hF ⊢
      rw [List.length_append] at hF
      cases F with
      | zero => exact absurd hF (Nat.not_lt_zero _)
      | succ F =>
        rw [List.append_assoc, hscan F, ih _ hv F tail (by omega), emit_some,
          List.take_append_drop]

/-- A quoted string written by `appendString` for a valid UTF-8 source is scanned back to the
source. -/
theorem parseString_appendString (src tail : Bytes) (hv : Valid src = true) :
    parseString (appendStringBody src.length src ++ 0x22 :: tail) = some (src, tail) := by
  rw [parseString]
  exact scan_appendStringBody src.length src hv _ tail (by simp)

theorem parseString_key (key : Bytes) (hk : ∀ b ∈ key, htmlSafeSet b = true) (rest : Bytes) :
    parseString (key ++ 0x22 :: rest) = some (key, rest) := by
  have h := parseStringBody_safe key hk (rest.length + 1) (0x22 :: rest)
  have hlen : (key ++ 0x22 :: rest).length = key.length + (rest.length + 1) := by simp
  rw [parseString, hlen, h, parseStringBody_quote]
  simp [emit]

/-- Decoding the JSON object with one member, whose key is `name` and whose value is what
`appendString` writes for a valid UTF-8 string `src`, into the struct with the field `name`
gives `src`. -/
theorem decodeStringField_single (name : Bytes) (hname : ∀ b ∈ name, htmlSafeSet b = true)
    (src : Bytes) (hv : Valid src = true) (tail : Bytes) :
    decodeStringField name
        (0x7B :: 0x22 :: (name ++ 0x22 :: 0x3A :: (appendString src ++ 0x7D :: tail))) =
      Except.ok src := by
  have hbody : (0x7B : Byte) :: 0x22 :: (name ++ 0x22 :: 0x3A :: (appendString src ++ 0x7D :: tail)) =
      0x7B :: 0x22 :: (name ++ 0x22 :: 0x3A :: 0x22 ::
        (appendStringBody src.length src ++ 0x22 :: 0x7D :: tail)) := by
    simp [appendString]
  have hlen : 2 * ((0x7B : Byte) :: 0x22 :: (name ++ 0x22 :: 0x3A :: 0x22 ::
        (appendStringBody src.length src ++ 0x22 :: 0x7D :: tail))).length + 1 =
      (2 * (name.length + (appendStringBody src.length src).length + tail.length) + 12 + 1 + 1)
        + 1 := by
    simp only [List.length_cons, List.length_append]
    omega
  have hval : parseValue
      (2 * (name.length + (appendStringBody src.length src).length + tail.length) + 12 + 1) 1
      (0x22 :: (appendStringBody src.length src ++ 0x22 :: 0x7D :: tail)) =
      some (JValue.string src, 0x7D :: tail) := by
    rw [parseValue_string, parseString_appendString src _ hv]
    rfl
  have hmem := parseMembers_single
    (2 * (name.length + (appendStringBody src.length src).length + tail.length) + 12 + 1) 1
    _ _ tail _ _ (parseString_key name hname _) hval
  have hread : readValue ((0x7B : Byte) :: 0x22 :: (name ++ 0x22 :: 0x3A :: 0x22 ::
        (appendStringBody src.length src ++ 0x22 :: 0x7D :: tail))) =
      some (JValue.object [(name, JValue.string src)]) := by
    rw [readValue, hlen, parseValue_object, hmem]
    rfl
  rw [hbody, decodeStringField, hread]
  simp [unmarshalField, storeMember, keyMatches]

/-- Decoding the JSON text `json.Marshal` writes for a request with valid UTF-8 data gives the
request back. -/
theorem decodeRequest_marshalRequest (s : Bytes) (hv : Valid s = true) :
    decodeRequest (marshalRequest { Data := s }) = Except.ok { Data := s } := by
  have hs : (str "data").all htmlSafeSet = true := by decide
  have h := decodeStringField_single (str "data") (fun b hb => List.all_eq_true.mp hs b hb) s hv []
  have hbody : marshalRequest { Data := s } =
      0x7B :: 0x22 :: (str "data" ++ 0x22 :: 0x3A :: (appendString s ++ 0x7D :: [])) := by
    simp only [marshalRequest]
    have e1 : str "\x7b\"data\":" = 0x7B :: 0x22 :: (str "data" ++ [0x22, 0x3A]) := by decide
    have e2 : str "\x7d" = [0x7D] := by decide
    rw [e1, e2]
    simp
  rw [decodeRequest, hbody, h]

/-! ## The Transform Utility -/

/-- C1: given at least one argument beyond the program name, the utility writes to standard
output the padded, standard-alphabet base64 text (RFC 4648) of the bytes of its first argument
followed by one newline, writes nothing to standard error and exits with status 0; arguments
after the first change nothing. -/
theorem main_prints_base64_of_first_argument (args : List Bytes) (h : 2 ≤ args.length) :
    main args =
        { stdout := base64Text (args.get ⟨1, h⟩) ++ [10], stderr := [], exitCode := 0 } ∧
      main args = main (args.take 2) := by
  match args, h with
  | prog :: input :: extra, _ =>
    constructor
    · simp [main, EncodeToString, Encode_eq_base64Text]
    · simp [main]

/-- C1 at the argument `hello`: the utility prints `aGVsbG8=` and a newline and exits 0. -/
theorem main_prints_base64_of_first_argument_witness :
    main [str "./sidecar", str "hello"] =
      { stdout := str "aGVsbG8=\n", stderr := [], exitCode := 0 } :=
  (main_prints_base64_of_first_argument [str "./sidecar", str "hello"] (by decide)).1.trans
    (by decide)

/-- C6: without an argument beyond the program name the utility writes the usage line to
standard output, nothing to standard error, no base64 text, and exits with status 1. -/
theorem main_usage_without_argument (args : List Bytes) (h : args.length < 2) :
    main args =
      { stdout := str "Usage: ./sidecar <string>\n", stderr := [], exitCode := 1 } := by
  simp only [main, h, dite_true]
  rfl

/-- C6 at the argument list holding only the program name. -/
theorem main_usage_without_argument_witness :
    main [str "./sidecar"] =
      { stdout := str "Usage: ./sidecar <string>\n", stderr := [], exitCode := 1 } :=
  main_usage_without_argument [str "./sidecar"] (by decide)

/-! ## The Encoder Service -/

/-- The response `http.Error` writes on a fresh response writer. -/
theorem Error_new (msg : Bytes) (code : Nat) :
    Error ResponseWriter.new msg code =
      { header := [("Content-Type", "text/plain; charset=utf-8"),
                   ("X-Content-Type-Options", "nosniff")],
        status := some code, body := msg ++ [10] } := by
  simp [Error, ResponseWriter.new, ResponseWriter.Del, ResponseWriter.Set,
    ResponseWriter.WriteHeader, ResponseWriter.Write]

/-- The success response on a fresh response writer. -/
theorem encodeResponse_new (res : Response) :
    encodeResponse (ResponseWriter.new.Set "Content-Type" "application/json") res =
      { header := [("Content-Type", "application/json")], status := some 200,
        body := marshalResponse res ++ [10] } := by
  simp [encodeResponse, ResponseWriter.new, ResponseWriter.Set, ResponseWriter.WriteHeader,
    ResponseWriter.Write]

/-- The handler when the request does not decode. -/
theorem encodeHandler_of_decode_error (host : Host) (w : ResponseWriter) (r : HttpRequest)
    (e : DecodeError) (h : decodeRequest r.Body = Except.error e) :
    encodeHandler host w r =
      { w := Error w (str "Invalid request") StatusBadRequest, ran := [], launched := [] } := by
  simp only [encodeHandler, h]

/-- The handler when the request decodes and `Output` fails. -/
theorem encodeHandler_of_output_error (host : Host) (w : ResponseWriter) (r : HttpRequest)
    (req : Request) (e : ExecError) (asked : List Launch)
    (h : decodeRequest r.Body = Except.ok req)
    (hout : (Command sidecarPath [req.Data]).Output host = (Except.error e, asked)) :
    encodeHandler host w r =
      { w := Error w (str "Error executing sidecar") StatusInternalServerError,
        ran := [Command sidecarPath [req.Data]], launched := asked } := by
  simp only [encodeHandler, h, hout]

/-- The handler when the request decodes and `Output` succeeds. -/
theorem encodeHandler_of_output (host : Host) (w : ResponseWriter) (r : HttpRequest)
    (req : Request) (out : Bytes) (asked : List Launch)
    (h : decodeRequest r.Body = Except.ok req)
    (hout : (Command sidecarPath [req.Data]).Output host = (Except.ok out, asked)) :
    encodeHandler host w r =
      { w := encodeResponse (w.Set "Content-Type" "application/json") { Encoded := out },
        ran := [Command sidecarPath [req.Data]], launched := asked } := by
  simp only [encodeHandler, h, hout]

/-- The result and the record of `startAndWait`, put together again. -/
theorem startAndWait_eq (host : Host) (c : Cmd) :
    c.startAndWait host = (c.Run host, (c.startAndWait host).2) := rfl

/-- `Output` fails when the process cannot be started or exits with a non-zero status. -/
theorem Output_error_of_failure (host : Host) (c : Cmd)
    (h : (∃ e, c.Run host = Except.error e) ∨
      (∃ res, c.Run host = Except.ok res ∧ res.exitCode ≠ 0)) :
    ∃ e, c.Output host = (Except.error e, (c.startAndWait host).2) := by
  rcases h with ⟨e, he⟩ | ⟨res, hres, hcode⟩
  · refine ⟨e, ?_⟩
    rw [Cmd.Output, startAndWait_eq, he]
  · refine ⟨ExecError.exitError res.exitCode, ?_⟩
    rw [Cmd.Output, startAndWait_eq, hres]
    simp only [if_neg hcode]

/-- `Output` returns the captured standard output of a process that exits with status 0. -/
theorem Output_of_exit_zero (host : Host) (c : Cmd) (res : ProcResult)
    (h : c.Run host = Except.ok res) (hcode : res.exitCode = 0) :
    c.Output host = (Except.ok res.stdout, (c.startAndWait host).2) := by
  rw [Cmd.Output, startAndWait_eq, h]
  simp only [if_pos hcode]

/-- The host is asked at most once. -/
theorem launched_length_le (host : Host) (c : Cmd) : (c.startAndWait host).2.length ≤ 1 := by
  unfold Cmd.startAndWait forkExec
  split
  · exact Nat.zero_le 1
  · cases host c.Path c.Args <;> exact Nat.le_refl 1

/-- When a process ran, the host was asked once, for the path and the arguments of the
command. -/
theorem launched_of_run_ok (host : Host) (c : Cmd) (res : ProcResult)
    (h : c.Run host = Except.ok res) :
    (c.startAndWait host).2 = [{ Path := c.Path, Argv := c.Args }] := by
  unfold Cmd.Run Cmd.startAndWait forkExec at h
  unfold Cmd.startAndWait forkExec
  split
  · rename_i hnul
    rw [if_pos hnul] at h
    cases h
  · cases host c.Path c.Args <;> rfl

/-- Without a NUL byte in the data, `startAndWait` asks the host once, with the data as the
one argument, and passes on what the host answers. -/
theorem startAndWait_of_no_nul (host : Host) (s : Bytes) (hnul : (0 : Byte) ∉ s) :
    (Command sidecarPath [s]).startAndWait host =
      (match host sidecarPath [sidecarPath, s] with
        | none => Except.error ExecError.startFailed
        | some r => Except.ok r,
       [{ Path := sidecarPath, Argv := [sidecarPath, s] }]) := by
  have hp : (0 : Byte) ∉ sidecarPath := by decide
  have hno : ((Command sidecarPath [s]).Path :: (Command sidecarPath [s]).Args).any
      (fun x => x.contains 0) = false := by
    simp [Command, hp, hnul]
  unfold Cmd.startAndWait forkExec
  rw [hno]
  simp only [Command]
  cases host sidecarPath [sidecarPath, s] <;> rfl

/-- The argument vector the handler builds holds a NUL byte only if the data does. -/
theorem Run_of_no_nul (host : Host) (s : Bytes) (hnul : (0 : Byte) ∉ s) :
    (Command sidecarPath [s]).Run host =
      match host sidecarPath [sidecarPath, s] with
      | none => Except.error ExecError.startFailed
      | some r => Except.ok r := by
  rw [Cmd.Run, startAndWait_of_no_nul host s hnul]

/-- C3: when the body does not deserialize into `Request`, the response has status 400, the
plain-text body `Invalid request`, no command is run and the host is not asked to start a
process. -/
theorem encodeHandler_bad_request (host : Host) (r : HttpRequest) (e : DecodeError)
    (h : decodeRequest r.Body = Except.error e) :
    encodeHandler host ResponseWriter.new r =
      { w := { header := [("Content-Type", "text/plain; charset=utf-8"),
                          ("X-Content-Type-Options", "nosniff")],
               status := some 400, body := str "Invalid request\n" },
        ran := [], launched := [] } := by
  rw [encodeHandler_of_decode_error host _ r e h, Error_new]
  rfl

/-- C3 at the body `not json`, which is not JSON, and at the body `{"data":5}`, which is JSON
of the wrong shape, on a host where the utility is installed. -/
theorem encodeHandler_bad_request_witness :
    decodeRequest (str "not json") = Except.error DecodeError.invalidJSON ∧
      encodeHandler sidecarHost ResponseWriter.new { Method := "POST", Body := str "not json" } =
        { w := { header := [("Content-Type", "text/plain; charset=utf-8"),
                            ("X-Content-Type-Options", "nosniff")],
                 status := some 400, body := str "Invalid request\n" },
          ran := [], launched := [] } ∧
      decodeRequest (str "\x7b\"data\":5\x7d") = Except.error DecodeError.typeMismatch ∧
      encodeHandler sidecarHost ResponseWriter.new
          { Method := "POST", Body := str "\x7b\"data\":5\x7d" } =
        { w := { header := [("Content-Type", "text/plain; charset=utf-8"),
                            ("X-Content-Type-Options", "nosniff")],
                 status := some 400, body := str "Invalid request\n" },
          ran := [], launched := [] } :=
  ⟨rfl, encodeHandler_bad_request sidecarHost { Method := "POST", Body := str "not json" }
    DecodeError.invalidJSON rfl, rfl,
    encodeHandler_bad_request sidecarHost { Method := "POST", Body := str "\x7b\"data\":5\x7d" }
      DecodeError.typeMismatch rfl⟩

/-- C4: when the body deserializes and the child process cannot be started or exits with a
non-zero status, the response has status 500 and the plain-text body
`Error executing sidecar`, the same for every cause; the command is run once, and the host is
asked to start a process at most once. -/
theorem encodeHandler_subprocess_failure (host : Host) (r : HttpRequest) (req : Request)
    (hdec : decodeRequest r.Body = Except.ok req)
    (hfail : (∃ e, (Command sidecarPath [req.Data]).Run host = Except.error e) ∨
      (∃ res, (Command sidecarPath [req.Data]).Run host = Except.ok res ∧ res.exitCode ≠ 0)) :
    (encodeHandler host ResponseWriter.new r).w =
        { header := [("Content-Type", "text/plain; charset=utf-8"),
                     ("X-Content-Type-Options", "nosniff")],
          status := some 500, body := str "Error executing sidecar\n" } ∧
      (encodeHandler host ResponseWriter.new r).ran = [Command sidecarPath [req.Data]] ∧
      (encodeHandler host ResponseWriter.new r).launched.length ≤ 1 := by
  obtain ⟨e, he⟩ := Output_error_of_failure host _ hfail
  rw [encodeHandler_of_output_error host _ r req e _ hdec he, Error_new]
  exact ⟨rfl, rfl, launched_length_le host _⟩

/-- C4 on a host that starts no process, and on a host whose executable exits with status 3:
the two responses are the same. -/
theorem encodeHandler_subprocess_failure_witness :
    (encodeHandler emptyHost ResponseWriter.new
        { Method := "POST", Body := str "\x7b\"data\":\"hello\"\x7d" }).w =
      { header := [("Content-Type", "text/plain; charset=utf-8"),
                   ("X-Content-Type-Options", "nosniff")],
        status := some 500, body := str "Error executing sidecar\n" } ∧
    (encodeHandler emptyHost ResponseWriter.new
        { Method := "POST", Body := str "\x7b\"data\":\"hello\"\x7d" }).ran =
      [Command sidecarPath [str "hello"]] ∧
    (encodeHandler (fun _ _ => some { stdout := str "x", stderr := [], exitCode := 3 })
        ResponseWriter.new { Method := "POST", Body := str "\x7b\"data\":\"hello\"\x7d" }).w =
      (encodeHandler emptyHost ResponseWriter.new
        { Method := "POST", Body := str "\x7b\"data\":\"hello\"\x7d" }).w :=
  ⟨(encodeHandler_subprocess_failure emptyHost
      { Method := "POST", Body := str "\x7b\"data\":\"hello\"\x7d" } { Data := str "hello" } rfl
      (Or.inl ⟨ExecError.startFailed, rfl⟩)).1,
    (encodeHandler_subprocess_failure emptyHost
      { Method := "POST", Body := str "\x7b\"data\":\"hello\"\x7d" } { Data := str "hello" } rfl
      (Or.inl ⟨ExecError.startFailed, rfl⟩)).2.1,
    ((encodeHandler_subprocess_failure
        (fun _ _ => some { stdout := str "x", stderr := [], exitCode := 3 })
        { Method := "POST", Body := str "\x7b\"data\":\"hello\"\x7d" } { Data := str "hello" } rfl
        (Or.inr ⟨{ stdout := str "x", stderr := [], exitCode := 3 }, rfl, by decide⟩)).1).trans
      (encodeHandler_subprocess_failure emptyHost
        { Method := "POST", Body := str "\x7b\"data\":\"hello\"\x7d" } { Data := str "hello" } rfl
        (Or.inl ⟨ExecError.startFailed, rfl⟩)).1.symm⟩

/-- C5: when the body deserializes and the child process exits with status 0, the response has
status 200, the content type `application/json`, and as body the JSON serialization (as
`json.Encoder` writes it) of the `Response` whose field is, byte for byte, the captured
standard output of the child process; the host was asked once, for the command. -/
theorem encodeHandler_success (host : Host) (r : HttpRequest) (req : Request)
    (res : ProcResult) (hdec : decodeRequest r.Body = Except.ok req)
    (hrun : (Command sidecarPath [req.Data]).Run host = Except.ok res)
    (hexit : res.exitCode = 0) :
    encodeHandler host ResponseWriter.new r =
      { w := { header := [("Content-Type", "application/json")], status := some 200,
               body := marshalResponse { Encoded := res.stdout } ++ [10] },
        ran := [Command sidecarPath [req.Data]],
        launched := [{ Path := sidecarPath, Argv := [sidecarPath, req.Data] }] } := by
  rw [encodeHandler_of_output host _ r req res.stdout _ hdec
      (Output_of_exit_zero host _ res hrun hexit),
    encodeResponse_new, launched_of_run_ok host _ res hrun]
  rfl

/-- C5 at the body `{"data":"hello"}` with the utility installed: the newline the utility
prints is kept, as the escape `\n` of the JSON string. -/
theorem encodeHandler_success_witness :
    encodeHandler sidecarHost ResponseWriter.new
        { Method := "POST", Body := str "\x7b\"data\":\"hello\"\x7d" } =
      { w := { header := [("Content-Type", "application/json")], status := some 200,
               body := str "\x7b\"encoded\":\"aGVsbG8=\\n\"\x7d\n" },
        ran := [Command sidecarPath [str "hello"]],
        launched := [{ Path := sidecarPath, Argv := [sidecarPath, str "hello"] }] } :=
  (encodeHandler_success sidecarHost { Method := "POST", Body := str "\x7b\"data\":\"hello\"\x7d" }
    { Data := str "hello" } (main [sidecarPath, str "hello"]) rfl rfl rfl).trans (by decide)

theorem trimNewline_append_newline (t : Bytes) : trimNewline (t ++ [10]) = t := by
  simp [trimNewline]

/-- The round trip for a request that decodes to `s`: the handler answers 200 and the field a
client decodes from the response is the base64 text of `s` and a newline. -/
theorem round_trip_of_decode (host : Host) (r : HttpRequest) (s : Bytes)
    (hdec : decodeRequest r.Body = Except.ok { Data := s })
    (hnul : (0 : Byte) ∉ s)
    (hhost : host sidecarPath [sidecarPath, s] = some (main [sidecarPath, s])) :
    (encodeHandler host ResponseWriter.new r).w.status = some 200 ∧
      ∃ e : Bytes, responseEncoded (encodeHandler host ResponseWriter.new r).w = Except.ok e ∧
        e = base64Text s ++ [10] ∧ base64Decode (trimNewline e) = some s := by
  have hrun : (Command sidecarPath [s]).Run host = Except.ok (main [sidecarPath, s]) := by
    rw [Run_of_no_nul host s hnul, hhost]
  have hmain : main [sidecarPath, s] =
      { stdout := Encode s ++ [10], stderr := [], exitCode := 0 } := by
    simp [main, EncodeToString]
  have hout := Output_of_exit_zero host _ _ hrun (by rw [hmain])
  rw [hmain] at hout
  rw [encodeHandler_of_output host _ r { Data := s } _ _ hdec hout, encodeResponse_new]
  refine ⟨rfl, Encode s ++ [10], ?_, ?_, ?_⟩
  · exact decode_marshal_line (Encode s) (Encode_safe s)
  · rw [Encode_eq_base64Text]
  · rw [trimNewline_append_newline, base64Decode_Encode]

/-- C2, amended: for every valid UTF-8 string `s` without NUL byte, on a host that starts the
Transform Utility when the handler asks for it with `s` as argument (a host refuses an
argument that is too long; Linux refuses 131072 bytes or more), a request whose body is the
JSON text `{"data": s}`, as `json.Marshal` writes it, gets status 200, and the field `encoded`
a client decodes from the response body is the base64 text of `s` and a newline:
base64-decoding it after removing that newline gives the bytes of `s` back. -/
theorem encodeHandler_round_trip (host : Host) (r : HttpRequest) (s : Bytes)
    (hbody : r.Body = marshalRequest { Data := s })
    (hvalid : Valid s = true)
    (hnul : (0 : Byte) ∉ s)
    (hhost : host sidecarPath [sidecarPath, s] = some (main [sidecarPath, s])) :
    (encodeHandler host ResponseWriter.new r).w.status = some 200 ∧
      ∃ e : Bytes, responseEncoded (encodeHandler host ResponseWriter.new r).w = Except.ok e ∧
        e = base64Text s ++ [10] ∧ base64Decode (trimNewline e) = some s :=
  round_trip_of_decode host r s (by rw [hbody]; exact decodeRequest_marshalRequest s hvalid)
    hnul hhost

/-- C2 amended, at the string `a"<é€`, five characters of one, two and three bytes, two of
which the JSON text escapes: the body is `{"data":"a\"\u003cé€"}`. -/
theorem encodeHandler_round_trip_witness :
    marshalRequest { Data := [0x61, 0x22, 0x3C, 0xC3, 0xA9, 0xE2, 0x82, 0xAC] } =
        str "\x7b\"data\":\"a\\\"\\u003c\u00e9\u20ac\"\x7d" ∧
      (encodeHandler sidecarHost ResponseWriter.new
        { Method := "POST",
          Body := marshalRequest { Data := [0x61, 0x22, 0x3C, 0xC3, 0xA9, 0xE2, 0x82, 0xAC] } }
        ).w.status = some 200 ∧
      ∃ e : Bytes,
        responseEncoded (encodeHandler sidecarHost ResponseWriter.new
          { Method := "POST",
            Body := marshalRequest { Data := [0x61, 0x22, 0x3C, 0xC3, 0xA9, 0xE2, 0x82, 0xAC] } }
          ).w = Except.ok e ∧
        e = base64Text [0x61, 0x22, 0x3C, 0xC3, 0xA9, 0xE2, 0x82, 0xAC] ++ [10] ∧
        base64Decode (trimNewline e) = some [0x61, 0x22, 0x3C, 0xC3, 0xA9, 0xE2, 0x82, 0xAC] :=
  ⟨by decide,
    encodeHandler_round_trip sidecarHost
      { Method := "POST",
        Body := marshalRequest { Data := [0x61, 0x22, 0x3C, 0xC3, 0xA9, 0xE2, 0x82, 0xAC] } }
      [0x61, 0x22, 0x3C, 0xC3, 0xA9, 0xE2, 0x82, 0xAC] rfl (by decide) (by decide) rfl⟩

/-- C2 fails at the string holding the single character U+0000, which is valid UTF-8 and is
written `\u0000` in JSON: the body deserializes, the utility is installed, and the response
has status 500, because a process argument cannot hold a NUL byte. -/
theorem encodeHandler_round_trip_fails_on_nul :
    Valid [0] = true ∧
      marshalRequest { Data := [0] } = str "\x7b\"data\":\"\\u0000\"\x7d" ∧
      decodeRequest (str "\x7b\"data\":\"\\u0000\"\x7d") = Except.ok { Data := [0] } ∧
      sidecarHost sidecarPath [sidecarPath, [0]] = some (main [sidecarPath, [0]]) ∧
      (encodeHandler sidecarHost ResponseWriter.new
        { Method := "POST", Body := str "\x7b\"data\":\"\\u0000\"\x7d" }).w.status = some 500 :=
  ⟨rfl, by decide, rfl, rfl, rfl⟩

/-- Members whose keys do not select the field leave the field as it is. -/
theorem foldl_storeMember_of_no_match (name : Bytes) (members : List (Bytes × JValue))
    (h : ∀ m ∈ members, keyMatches name m.1 = false) (st : Bytes × Bool) :
    members.foldl (storeMember name) st = st := by
  induction members generalizing st with
  | nil => rfl
  | cons m ms ih =>
    have hm := h m (List.mem_cons_self m ms)
    rw [List.foldl_cons]
    have hst : storeMember name st m = st := by simp [storeMember, hm]
    rw [hst]
    exact ih (fun x hx => h x (List.mem_cons_of_mem m hx)) st

/-- C7, amended: when the body is a JSON object none of whose keys matches `data`, compared
without regard to letter case as `encoding/json` compares them (as `{}` or `{"other":1}`),
the body deserializes with `Data` empty; the handler runs the command once, the host is asked
once to start the utility with the empty string as its argument, and the status is 200 when
the child process succeeds and 500 when it fails, not 400. -/
theorem encodeHandler_missing_data (host : Host) (r : HttpRequest)
    (members : List (Bytes × JValue))
    (hread : readValue r.Body = some (JValue.object members))
    (hkeys : ∀ m ∈ members, keyMatches (str "data") m.1 = false) :
    decodeRequest r.Body = Except.ok { Data := [] } ∧
      (encodeHandler host ResponseWriter.new r).ran = [Command sidecarPath [[]]] ∧
      (encodeHandler host ResponseWriter.new r).launched =
        [{ Path := sidecarPath, Argv := [sidecarPath, []] }] ∧
      (encodeHandler host ResponseWriter.new r).w.status =
        (match host sidecarPath [sidecarPath, []] with
          | some res => if res.exitCode = 0 then some 200 else some 500
          | none => some 500) := by
  have hdec : decodeRequest r.Body = Except.ok { Data := [] } := by
    simp only [decodeRequest, decodeStringField, hread, unmarshalField,
      foldl_storeMember_of_no_match _ members hkeys]
    rfl
  refine ⟨hdec, ?_⟩
  have hsw := startAndWait_of_no_nul host [] (List.not_mem_nil _)
  cases hh : host sidecarPath [sidecarPath, []] with
  | none =>
    rw [hh] at hsw
    have hout : (Command sidecarPath [[]]).Output host =
        (Except.error ExecError.startFailed,
          [{ Path := sidecarPath, Argv := [sidecarPath, []] }]) := by
      rw [Cmd.Output, hsw]
    rw [encodeHandler_of_output_error host _ r { Data := [] } _ _ hdec hout, Error_new]
    exact ⟨rfl, rfl, rfl⟩
  | some res =>
    rw [hh] at hsw
    by_cases hcode : res.exitCode = 0
    · have hout : (Command sidecarPath [[]]).Output host =
          (Except.ok res.stdout, [{ Path := sidecarPath, Argv := [sidecarPath, []] }]) := by
        rw [Cmd.Output, hsw]
        simp only [if_pos hcode]
      rw [encodeHandler_of_output host _ r { Data := [] } _ _ hdec hout, encodeResponse_new]
      refine ⟨rfl, rfl, ?_⟩
      show _ = (if res.exitCode = 0 then some 200 else some 500)
      rw [if_pos hcode]
    · have hout : (Command sidecarPath [[]]).Output host =
          (Except.error (ExecError.exitError res.exitCode),
            [{ Path := sidecarPath, Argv := [sidecarPath, []] }]) := by
        rw [Cmd.Output, hsw]
        simp only [if_neg hcode]
      rw [encodeHandler_of_output_error host _ r { Data := [] } _ _ hdec hout, Error_new]
      refine ⟨rfl, rfl, ?_⟩
      show _ = (if res.exitCode = 0 then some 200 else some 500)
      rw [if_neg hcode]
      rfl

/-- C7 amended, at the body `{"other":1,"name":"x"}`, an object with two members and no field
`data`, on a host where the utility is installed (status 200) and on a host that starts no
process (status 500). -/
theorem encodeHandler_missing_data_witness :
    decodeRequest (str "\x7b\"other\":1,\"name\":\"x\"\x7d") = Except.ok { Data := [] } ∧
      (encodeHandler sidecarHost ResponseWriter.new
        { Method := "POST", Body := str "\x7b\"other\":1,\"name\":\"x\"\x7d" }).launched =
          [{ Path := sidecarPath, Argv := [sidecarPath, []] }] ∧
      (encodeHandler sidecarHost ResponseWriter.new
        { Method := "POST", Body := str "\x7b\"other\":1,\"name\":\"x\"\x7d" }).w.status =
          some 200 ∧
      (encodeHandler emptyHost ResponseWriter.new
        { Method := "POST", Body := str "\x7b\"other\":1,\"name\":\"x\"\x7d" }).w.status =
          some 500 :=
  ⟨(encodeHandler_missing_data sidecarHost
      { Method := "POST", Body := str "\x7b\"other\":1,\"name\":\"x\"\x7d" }
      [(str "other", JValue.number), (str "name", JValue.string (str "x"))] rfl
      (by decide)).1,
    (encodeHandler_missing_data sidecarHost
      { Method := "POST", Body := str "\x7b\"other\":1,\"name\":\"x\"\x7d" }
      [(str "other", JValue.number), (str "name", JValue.string (str "x"))] rfl
      (by decide)).2.2.1,
    (encodeHandler_missing_data sidecarHost
      { Method := "POST", Body := str "\x7b\"other\":1,\"name\":\"x\"\x7d" }
      [(str "other", JValue.number), (str "name", JValue.string (str "x"))] rfl
      (by decide)).2.2.2,
    (encodeHandler_missing_data emptyHost
      { Method := "POST", Body := str "\x7b\"other\":1,\"name\":\"x\"\x7d" }
      [(str "other", JValue.number), (str "name", JValue.string (str "x"))] rfl
      (by decide)).2.2.2⟩

/-- C7 fails at the body `{}`: it is valid JSON without the field `data`, it deserializes,
the utility is run with the empty string, and the status is 200. -/
theorem encodeHandler_missing_data_not_rejected :
    encodeHandler sidecarHost ResponseWriter.new { Method := "POST", Body := str "\x7b\x7d" } =
      { w := { header := [("Content-Type", "application/json")], status := some 200,
               body := str "\x7b\"encoded\":\"\\n\"\x7d\n" },
        ran := [Command sidecarPath [[]]],
        launched := [{ Path := sidecarPath, Argv := [sidecarPath, []] }] } := by
  decide

/-- C8, amended: when the executable cannot be started, whatever its arguments, every request
whose body deserializes gets status 500. -/
theorem encodeHandler_no_executable (host : Host)
    (hhost : ∀ argv, host sidecarPath argv = none) (r : HttpRequest) (req : Request)
    (hdec : decodeRequest r.Body = Except.ok req) :
    (encodeHandler host ResponseWriter.new r).w.status = some 500 := by
  have hrun : ∃ e, (Command sidecarPath [req.Data]).Run host = Except.error e := by
    simp only [Cmd.Run, Cmd.startAndWait, forkExec, Command, hhost]
    split
    · exact ⟨_, rfl⟩
    · exact ⟨_, rfl⟩
  obtain ⟨e, he⟩ := Output_error_of_failure host _ (Or.inl hrun)
  rw [encodeHandler_of_output_error host _ r req e _ hdec he, Error_new]
  rfl

/-- C8 amended, at the body `{"data":"hello"}` on a host that starts no process. -/
theorem encodeHandler_no_executable_witness :
    (encodeHandler emptyHost ResponseWriter.new
      { Method := "POST", Body := str "\x7b\"data\":\"hello\"\x7d" }).w.status = some 500 :=
  encodeHandler_no_executable emptyHost (fun _ => rfl)
    { Method := "POST", Body := str "\x7b\"data\":\"hello\"\x7d" } { Data := str "hello" } rfl

/-- C8 fails at the body `not json`: on a host that starts no process the status is 400,
not 500. -/
theorem encodeHandler_no_executable_bad_body :
    (∀ path argv, emptyHost path argv = none) ∧
      (encodeHandler emptyHost ResponseWriter.new
        { Method := "POST", Body := str "not json" }).w.status = some 400 :=
  ⟨fun _ _ => rfl, rfl⟩

/-- C9: the body `{"data": ""}` is accepted and the empty string is passed to the utility,
which treats it as an argument (exit status 0, no usage line) and prints the base64 text of
the empty byte sequence, that is nothing, and a newline; the response is 200 and its field
`encoded` is the one-character string holding a newline. -/
theorem encodeHandler_empty_data (host : Host) (method : String)
    (hhost : host sidecarPath [sidecarPath, []] = some (main [sidecarPath, []])) :
    decodeRequest (str "\x7b\"data\": \"\"\x7d") = Except.ok { Data := [] } ∧
      main [sidecarPath, []] = { stdout := base64Text [] ++ [10], stderr := [], exitCode := 0 } ∧
      base64Text [] = [] ∧
      encodeHandler host ResponseWriter.new
          { Method := method, Body := str "\x7b\"data\": \"\"\x7d" } =
        { w := { header := [("Content-Type", "application/json")], status := some 200,
                 body := str "\x7b\"encoded\":\"\\n\"\x7d\n" },
          ran := [Command sidecarPath [[]]],
          launched := [{ Path := sidecarPath, Argv := [sidecarPath, []] }] } ∧
      responseEncoded (encodeHandler host ResponseWriter.new
          { Method := method, Body := str "\x7b\"data\": \"\"\x7d" }).w = Except.ok [10] := by
  have hdec : decodeRequest (str "\x7b\"data\": \"\"\x7d") = Except.ok { Data := [] } := rfl
  have hrun : (Command sidecarPath [[]]).Run host = Except.ok (main [sidecarPath, []]) := by
    rw [Run_of_no_nul host [] (List.not_mem_nil _), hhost]
  have hout := Output_of_exit_zero host _ _ hrun rfl
  rw [launched_of_run_ok host _ _ hrun] at hout
  have h := encodeHandler_of_output host ResponseWriter.new
    { Method := method, Body := str "\x7b\"data\": \"\"\x7d" } { Data := [] } _ _ hdec hout
  rw [encodeResponse_new] at h
  refine ⟨hdec, rfl, rfl, h.trans (by decide), ?_⟩
  rw [h]
  rfl

/-- C9 on the host where the utility is installed, for a `POST` request. -/
theorem encodeHandler_empty_data_witness :
    encodeHandler sidecarHost ResponseWriter.new
        { Method := "POST", Body := str "\x7b\"data\": \"\"\x7d" } =
      { w := { header := [("Content-Type", "application/json")], status := some 200,
               body := str "\x7b\"encoded\":\"\\n\"\x7d\n" },
        ran := [Command sidecarPath [[]]],
        launched := [{ Path := sidecarPath, Argv := [sidecarPath, []] }] } :=
  (encodeHandler_empty_data sidecarHost "POST" rfl).2.2.2.1

/-- C10, amended: when the body deserializes to data without NUL byte, the host is asked
exactly once to start a process: the executable `/shared-bin/sidecar` with exactly one
argument, the decoded `Data` as it is. The response is decided by what the host answers to
that one request, and two requests with the same body are handled alike, whatever their
method, URL and header fields. -/
theorem encodeHandler_launches_sidecar_once (host : Host) (w : ResponseWriter)
    (r : HttpRequest) (req : Request) (hdec : decodeRequest r.Body = Except.ok req)
    (hnul : (0 : Byte) ∉ req.Data) :
    (encodeHandler host w r).launched =
        [{ Path := str "/shared-bin/sidecar",
           Argv := [str "/shared-bin/sidecar", req.Data] }] ∧
      (encodeHandler host w r).w =
        (match host (str "/shared-bin/sidecar") [str "/shared-bin/sidecar", req.Data] with
          | some res =>
            if res.exitCode = 0 then
              encodeResponse (w.Set "Content-Type" "application/json") { Encoded := res.stdout }
            else Error w (str "Error executing sidecar") StatusInternalServerError
          | none => Error w (str "Error executing sidecar") StatusInternalServerError) ∧
      ∀ r2 : HttpRequest, r2.Body = r.Body → encodeHandler host w r2 = encodeHandler host w r := by
  have hsw := startAndWait_of_no_nul host req.Data hnul
  refine ⟨?_, ?_, ?_⟩
  · cases hh : host sidecarPath [sidecarPath, req.Data] with
    | none =>
      rw [hh] at hsw
      have hout : (Command sidecarPath [req.Data]).Output host =
          (Except.error ExecError.startFailed,
            [{ Path := sidecarPath, Argv := [sidecarPath, req.Data] }]) := by
        rw [Cmd.Output, hsw]
      rw [encodeHandler_of_output_error host w r req _ _ hdec hout]
      rfl
    | some res =>
      rw [hh] at hsw
      by_cases hcode : res.exitCode = 0
      · have hout : (Command sidecarPath [req.Data]).Output host =
            (Except.ok res.stdout,
              [{ Path := sidecarPath, Argv := [sidecarPath, req.Data] }]) := by
          rw [Cmd.Output, hsw]
          simp only [if_pos hcode]
        rw [encodeHandler_of_output host w r req _ _ hdec hout]
        rfl
      · have hout : (Command sidecarPath [req.Data]).Output host =
            (Except.error (ExecError.exitError res.exitCode),
              [{ Path := sidecarPath, Argv := [sidecarPath, req.Data] }]) := by
          rw [Cmd.Output, hsw]
          simp only [if_neg hcode]
        rw [encodeHandler_of_output_error host w r req _ _ hdec hout]
        rfl
  · have hp : str "/shared-bin/sidecar" = sidecarPath := rfl
    rw [hp]
    cases hh : host sidecarPath [sidecarPath, req.Data] with
    | none =>
      rw [hh] at hsw
      have hout : (Command sidecarPath [req.Data]).Output host =
          (Except.error ExecError.startFailed,
            [{ Path := sidecarPath, Argv := [sidecarPath, req.Data] }]) := by
        rw [Cmd.Output, hsw]
      rw [encodeHandler_of_output_error host w r req _ _ hdec hout]
    | some res =>
      rw [hh] at hsw
      by_cases hcode : res.exitCode = 0
      · have hout : (Command sidecarPath [req.Data]).Output host =
            (Except.ok res.stdout,
              [{ Path := sidecarPath, Argv := [sidecarPath, req.Data] }]) := by
          rw [Cmd.Output, hsw]
          simp only [if_pos hcode]
        rw [encodeHandler_of_output host w r req _ _ hdec hout]
        simp only [if_pos hcode]
      · have hout : (Command sidecarPath [req.Data]).Output host =
            (Except.error (ExecError.exitError res.exitCode),
              [{ Path := sidecarPath, Argv := [sidecarPath, req.Data] }]) := by
          rw [Cmd.Output, hsw]
          simp only [if_neg hcode]
        rw [encodeHandler_of_output_error host w r req _ _ hdec hout]
        simp only [if_neg hcode]
  · intro r2 hbody
    simp only [encodeHandler, hbody]

/-- C10 amended, at the body `{"data":" a b;c "}` of a `GET` request with the utility
installed: the one argument is the data, spaces and all, and the response carries what the
utility printed for it. -/
theorem encodeHandler_launches_sidecar_once_witness :
    (encodeHandler sidecarHost ResponseWriter.new
        { Method := "GET", Body := str "\x7b\"data\":\" a b;c \"\x7d" }).launched =
      [{ Path := str "/shared-bin/sidecar",
         Argv := [str "/shared-bin/sidecar", str " a b;c "] }] ∧
    (encodeHandler sidecarHost ResponseWriter.new
        { Method := "GET", Body := str "\x7b\"data\":\" a b;c \"\x7d" }).w.body =
      str "\x7b\"encoded\":\"IGEgYjtjIA==\\n\"\x7d\n" :=
  ⟨(encodeHandler_launches_sidecar_once sidecarHost ResponseWriter.new
      { Method := "GET", Body := str "\x7b\"data\":\" a b;c \"\x7d" } { Data := str " a b;c " }
      rfl (by decide)).1,
    (congrArg ResponseWriter.body
      (encodeHandler_launches_sidecar_once sidecarHost ResponseWriter.new
        { Method := "GET", Body := str "\x7b\"data\":\" a b;c \"\x7d" } { Data := str " a b;c " }
        rfl (by decide)).2.1).trans (by decide)⟩

/-- C10 fails at the body `{"data":"\u0000"}`: the body deserializes, to the one-byte string
holding a NUL byte, and with the utility installed the host is never asked to start a
process. -/
theorem encodeHandler_nul_data_launches_nothing :
    decodeRequest (str "\x7b\"data\":\"\\u0000\"\x7d") = Except.ok { Data := [0] } ∧
      (encodeHandler sidecarHost ResponseWriter.new
        { Method := "POST", Body := str "\x7b\"data\":\"\\u0000\"\x7d" }).launched = [] ∧
      (encodeHandler sidecarHost ResponseWriter.new
        { Method := "POST", Body := str "\x7b\"data\":\"\\u0000\"\x7d" }).w.status = some 500 :=
  ⟨rfl, rfl, rfl⟩

end SidecarExample
